import Mathlib

/-!
# BucketAlerts: token buckets and the alerts registry

A shallow embedding of `Source/Clock.h`, `Source/Defs.h`, `Source/TokenBucket.cpp` and
`Source/AlertsManager.cpp`.

Modelling conventions.

* A C++ `double` is a rational (`ℚ`).  The first embedding computes exactly: it follows the
  arithmetic and the comparisons of the source and leaves rounding out.  Where a property
  depends on rounding, the second embedding (`UpdateRounded`, `ConsumeRounded`) applies a
  rounding function after every `double` operation; `binary64` is the rounding of IEEE 754
  double precision.  Infinities and NaN are left out of both.
* A `TimePoint` is the integer tick count (nanoseconds) of the clock.  Every call of
  `AccurateClock::Now()` in the source is one explicit `TimePoint` argument of the embedded
  function, so a function that reads the clock at several places has several such arguments.
* The static flags of `Defs` are passed as a record `Defs`.
* A method that mutates `*this` returns an `Outcome`: the returned value, the object after the
  call and the trace of the mutex operations and callback invocations it performed, in order.
* A callback is a C function pointer; it is represented by its address and an invocation is
  recorded in the trace together with the bucket it was handed (a `const` reference).
-/

namespace BucketAlerts

/-- Category identifier (`typedef unsigned int CategoryId`). -/
abbrev CategoryId := Nat

/-- Bucket identifier inside a category (`typedef unsigned int BucketId`). -/
abbrev BucketId := Nat

/-- Clock reading: tick count of `std::chrono::high_resolution_clock`, in nanoseconds. -/
abbrev TimePoint := Int

/-- Function pointer `void(*)(const TokenBucket&)`, represented by its address. -/
abbrev BucketCallback := Nat

/-- Behaviour flags of `class Defs` (static members, set by the embedding program). -/
structure Defs where
  ThreadSafe : Bool
  DefaultCategoryId : CategoryId
  ResetWhenConsumed : Bool
  AutoUpdate : Bool
deriving DecidableEq

namespace AccurateClock

/-- Seconds between two time points: `AccurateClock::DiffSeconds`. -/
def DiffSeconds (prev_t now_t : TimePoint) : ℚ :=
  if now_t = prev_t then 0 else ((now_t - prev_t : Int) : ℚ) / 1000000000

end AccurateClock

/-- Data members of `class TokenBucket`; `OnBucketExhausted = none` is the null pointer. -/
structure TokenBucket where
  _tokens : ℚ
  _replenish_rate : ℚ
  _max_tokens : ℚ
  _starting_count : ℚ
  _total_consumption : ℚ
  _last_update_time : TimePoint
  OnBucketExhausted : Option BucketCallback
deriving DecidableEq

/-- The two kinds of mutex of the library: a bucket's `_mtx` and the manager's `_mtx`. -/
inductive Mutex where
  | bucket
  | registry
deriving DecidableEq

/-- Observable steps of a call besides the change of the data members. -/
inductive Event where
  | lock (m : Mutex)
  | unlock (m : Mutex)
  | callback (fn : BucketCallback) (bucket : TokenBucket)
deriving DecidableEq

/-- Result of a mutating method: returned value, object after the call, trace of the call. -/
structure Outcome (σ : Type) (α : Type) where
  ret : α
  state : σ
  trace : List Event

/-- Trace of `if (Defs::ThreadSafe) _mtx.lock();`. -/
def lockIf (d : Defs) (m : Mutex) : List Event :=
  if d.ThreadSafe then [Event.lock m] else []

/-- Trace of `if (Defs::ThreadSafe) _mtx.unlock();`. -/
def unlockIf (d : Defs) (m : Mutex) : List Event :=
  if d.ThreadSafe then [Event.unlock m] else []

/-- The callback invocations recorded in a trace, in order: function and bucket handed over. -/
def invocations : List Event → List (BucketCallback × TokenBucket)
  | [] => []
  | Event.callback fn b :: es => (fn, b) :: invocations es
  | Event.lock _ :: es => invocations es
  | Event.unlock _ :: es => invocations es

namespace TokenBucket

/-- Constructor `TokenBucket::TokenBucket(double starting, double max, double replenish_rate)`;
`now` is the reading of `AccurateClock::Now()`. -/
def new (now : TimePoint) (starting : ℚ) (max : ℚ) (replenish_rate : ℚ) : TokenBucket :=
  { _starting_count := starting
    _tokens := starting
    _max_tokens := max
    _replenish_rate := replenish_rate
    _total_consumption := 0
    _last_update_time := now
    OnBucketExhausted := none }

/-- Default constructor: the default arguments `starting=0, max=10, replenish_rate=1`. -/
def newDefault (now : TimePoint) : TokenBucket :=
  new now 0 10 1

/-- Copy constructor `TokenBucket::TokenBucket(const TokenBucket& other)`: the initializer list
copies five members, the body reads the clock, and `OnBucketExhausted` keeps its default member
initializer `nullptr`. -/
def copy (now : TimePoint) (other : TokenBucket) : TokenBucket :=
  { _starting_count := other._starting_count
    _tokens := other._tokens
    _max_tokens := other._max_tokens
    _replenish_rate := other._replenish_rate
    _total_consumption := other._total_consumption
    _last_update_time := now
    OnBucketExhausted := none }

/-- Assignment `TokenBucket::operator=`: the object assigned to, after the assignment. -/
def assign (_self : TokenBucket) (other : TokenBucket) : TokenBucket :=
  { _starting_count := other._starting_count
    _tokens := other._tokens
    _max_tokens := other._max_tokens
    _replenish_rate := other._replenish_rate
    _last_update_time := other._last_update_time
    _total_consumption := other._total_consumption
    OnBucketExhausted := other.OnBucketExhausted }

/-- Replenishment `TokenBucket::Update`; `now` is the reading of `AccurateClock::Now()`. -/
def Update (d : Defs) (now : TimePoint) (b : TokenBucket) : Outcome TokenBucket Unit :=
  let dt := AccurateClock.DiffSeconds b._last_update_time now
  if dt = 0 then
    { ret := (), state := b, trace := [] }
  else
    let b1 := { b with _last_update_time := now }
    let b2 := { b1 with _tokens := b1._tokens + dt * b1._replenish_rate }
    let b3 := if b2._tokens > b2._max_tokens then { b2 with _tokens := b2._max_tokens } else b2
    { ret := (), state := b3, trace := lockIf d Mutex.bucket ++ unlockIf d Mutex.bucket }

/-- Method `TokenBucket::Restore`. -/
def Restore (d : Defs) (amount : ℚ) (b : TokenBucket) : Outcome TokenBucket Unit :=
  let b1 := { b with _tokens := b._tokens + amount }
  let b2 := if b1._tokens > b1._max_tokens then { b1 with _tokens := b1._max_tokens } else b1
  { ret := (), state := b2, trace := lockIf d Mutex.bucket ++ unlockIf d Mutex.bucket }

/-- The bucket in the state in which `TokenBucket::Consume` takes its decision: after the
`Update()` of the first statement when `Defs::AutoUpdate` is set, the stored one otherwise. -/
def refreshed (d : Defs) (now : TimePoint) (b : TokenBucket) : Outcome TokenBucket Unit :=
  if d.AutoUpdate then Update d now b else { ret := (), state := b, trace := [] }

/-- Method `TokenBucket::Consume`; `now` is the clock reading of the `Update()` it may call. -/
def Consume (d : Defs) (now : TimePoint) (amount : ℚ) (b : TokenBucket) :
    Outcome TokenBucket Bool :=
  let u := refreshed d now b
  let b0 := u.state
  if b0._tokens ≥ amount then
    let b1 := { b0 with _tokens := b0._tokens - amount }
    let b2 := { b1 with _total_consumption := b1._total_consumption + amount }
    { ret := true, state := b2,
      trace := u.trace ++ lockIf d Mutex.bucket ++ unlockIf d Mutex.bucket }
  else
    let b1 := { b0 with _total_consumption := b0._total_consumption + b0._tokens }
    let b2 := { b1 with _tokens := 0 }
    let call := match b2.OnBucketExhausted with
      | some fn => [Event.callback fn b2]
      | none => []
    { ret := false, state := b2,
      trace := u.trace ++ lockIf d Mutex.bucket ++ unlockIf d Mutex.bucket ++ call }

/-- Method `TokenBucket::Count`; `now` is the clock reading of the `Update()` it may call. -/
def Count (d : Defs) (now : TimePoint) (b : TokenBucket) : Outcome TokenBucket ℚ :=
  let u := refreshed d now b
  { ret := u.state._tokens, state := u.state, trace := u.trace }

/-- Method `TokenBucket::Reset`. -/
def Reset (d : Defs) (b : TokenBucket) : Outcome TokenBucket Unit :=
  { ret := (), state := { b with _tokens := b._starting_count },
    trace := lockIf d Mutex.bucket ++ unlockIf d Mutex.bucket }

/-- Method `TokenBucket::Test` (a `const` method: the bucket is not changed). -/
def Test (amount : ℚ) (b : TokenBucket) : Bool :=
  decide (b._tokens ≥ amount)

end TokenBucket

/-- The container `std::unordered_map<CategoryId, std::unordered_map<BucketId, TokenBucket>>`:
a finite map is its lookup function, `none` standing for an absent key. -/
abbrev BucketMap := CategoryId → Option (BucketId → Option TokenBucket)

/-- Data members of `class AlertsManager`. -/
structure AlertsManager where
  _buckets : BucketMap
  Enabled : Bool

namespace AlertsManager

/-- A freshly constructed manager: no bucket, `Enabled = true`. -/
def new : AlertsManager :=
  { _buckets := fun _ => none, Enabled := true }

/-- The entry stored at a key, without inserting anything (`find` on both levels). -/
def find (m : AlertsManager) (cat_id : CategoryId) (bucket_id : BucketId) : Option TokenBucket :=
  match m._buckets cat_id with
  | some inner => inner bucket_id
  | none => none

/-- The expression `_buckets[cat_id][bucket_id]`: `operator[]` of both levels inserts a
value-initialised element when the key is absent (an empty inner map, a default-constructed
bucket whose constructor reads the clock as `now`).  Returns the element and the manager. -/
def index (now : TimePoint) (cat_id : CategoryId) (bucket_id : BucketId) (m : AlertsManager) :
    TokenBucket × AlertsManager :=
  match m._buckets cat_id with
  | some inner =>
    match inner bucket_id with
    | some b => (b, m)
    | none =>
      let b := TokenBucket.newDefault now
      let inner1 := Function.update inner bucket_id (some b)
      (b, { m with _buckets := Function.update m._buckets cat_id (some inner1) })
  | none =>
    let b := TokenBucket.newDefault now
    let inner1 : BucketId → Option TokenBucket := Function.update (fun _ => none) bucket_id (some b)
    (b, { m with _buckets := Function.update m._buckets cat_id (some inner1) })

/-- Write through the reference obtained from `_buckets[cat_id][bucket_id]`: the element at the
key becomes `b`. -/
def store (cat_id : CategoryId) (bucket_id : BucketId) (b : TokenBucket) (m : AlertsManager) :
    AlertsManager :=
  let inner : BucketId → Option TokenBucket :=
    match m._buckets cat_id with
    | some i => i
    | none => fun _ => none
  let inner1 := Function.update inner bucket_id (some b)
  { m with _buckets := Function.update m._buckets cat_id (some inner1) }

/-- Overload `AlertsManager::CreateBucket(cat_id, bucket_id, const TokenBucket& bucket)`;
`now` is the clock reading of the default constructor run by `operator[]` on an absent key. -/
def CreateBucketValue (d : Defs) (now : TimePoint) (cat_id : CategoryId) (bucket_id : BucketId)
    (bucket : TokenBucket) (m : AlertsManager) : Outcome AlertsManager Unit :=
  let slot := index now cat_id bucket_id m
  { ret := (), state := store cat_id bucket_id (TokenBucket.assign slot.1 bucket) slot.2,
    trace := lockIf d Mutex.registry ++ unlockIf d Mutex.registry }

/-- Overload `AlertsManager::CreateBucket(cat_id, bucket_id, starting_tokens, max_tokens,
replenish_rate, callback)`; `tNew` is the clock reading of the constructor of the local bucket
and `tSlot` the one of `operator[]`. -/
def CreateBucket (d : Defs) (tNew tSlot : TimePoint) (cat_id : CategoryId) (bucket_id : BucketId)
    (starting_tokens max_tokens replenish_rate : ℚ) (callback : Option BucketCallback)
    (m : AlertsManager) : Outcome AlertsManager Unit :=
  let bucket := TokenBucket.new tNew starting_tokens max_tokens replenish_rate
  let bucket := { bucket with OnBucketExhausted := callback }
  CreateBucketValue d tSlot cat_id bucket_id bucket m

/-- Method `AlertsManager::Clear`. -/
def Clear (d : Defs) (m : AlertsManager) : Outcome AlertsManager Unit :=
  { ret := (), state := { m with _buckets := fun _ => none },
    trace := lockIf d Mutex.registry ++ unlockIf d Mutex.registry }

/-- Method `AlertsManager::GetBucket(cat_id, bucket_id)`: the bucket referred to and the manager
after the lookup. -/
def GetBucket (now : TimePoint) (cat_id : CategoryId) (bucket_id : BucketId) (m : AlertsManager) :
    TokenBucket × AlertsManager :=
  index now cat_id bucket_id m

/-- Method `AlertsManager::Consume(cat_id, bucket_id, amount)`.  Clock readings: `tGet` for the
first `GetBucket`, `tUpd` for the `Update()` inside `TokenBucket::Consume`, `tReset` for the
`GetBucket` of the reset statement. -/
def Consume (d : Defs) (tGet tUpd tReset : TimePoint) (cat_id : CategoryId)
    (bucket_id : BucketId) (amount : ℚ) (m : AlertsManager) : Outcome AlertsManager Bool :=
  if !m.Enabled then
    { ret := true, state := m, trace := [] }
  else
    let bucket := GetBucket tGet cat_id bucket_id m
    let r := TokenBucket.Consume d tUpd amount bucket.1
    let m2 := store cat_id bucket_id r.state bucket.2
    if !r.ret && d.ResetWhenConsumed then
      let again := GetBucket tReset cat_id bucket_id m2
      let r2 := TokenBucket.Reset d again.1
      { ret := r.ret, state := store cat_id bucket_id r2.state again.2,
        trace := r.trace ++ r2.trace }
    else
      { ret := r.ret, state := m2, trace := r.trace }

/-- Method `AlertsManager::Restore(cat_id, bucket_id, amount)`. -/
def Restore (d : Defs) (now : TimePoint) (cat_id : CategoryId) (bucket_id : BucketId)
    (amount : ℚ) (m : AlertsManager) : Outcome AlertsManager Unit :=
  let bucket := GetBucket now cat_id bucket_id m
  let r := TokenBucket.Restore d amount bucket.1
  { ret := (), state := store cat_id bucket_id r.state bucket.2, trace := r.trace }

/-- Method `AlertsManager::ManualUpdate`: `Update()` on every stored bucket, under the manager's
mutex (locked whatever `Defs::ThreadSafe` says).  All buckets see the clock reading `now`; the
trace keeps the manager's mutex only. -/
def ManualUpdate (d : Defs) (now : TimePoint) (m : AlertsManager) : Outcome AlertsManager Unit :=
  let each : BucketMap := fun c =>
    (m._buckets c).map fun inner => fun i =>
      (inner i).map fun b => (TokenBucket.Update d now b).state
  { ret := (), state := { m with _buckets := each },
    trace := [Event.lock Mutex.registry, Event.unlock Mutex.registry] }

/-- Method `AlertsManager::ResetAll`: `Reset()` on every stored bucket, under the manager's mutex
(locked whatever `Defs::ThreadSafe` says).  The trace keeps the manager's mutex only. -/
def ResetAll (d : Defs) (m : AlertsManager) : Outcome AlertsManager Unit :=
  let each : BucketMap := fun c =>
    (m._buckets c).map fun inner => fun i =>
      (inner i).map fun b => (TokenBucket.Reset d b).state
  { ret := (), state := { m with _buckets := each },
    trace := [Event.lock Mutex.registry, Event.unlock Mutex.registry] }

end AlertsManager

/-! ## Sequences of calls on one bucket -/

/-- One call on a bucket, with the clock reading it observes where it reads the clock. -/
inductive Call where
  | update (now : TimePoint)
  | restore (amount : ℚ)
  | consume (now : TimePoint) (amount : ℚ)
  | count (now : TimePoint)
  | reset
deriving DecidableEq

/-- The bucket after one call. -/
def Call.apply (d : Defs) (c : Call) (b : TokenBucket) : TokenBucket :=
  match c with
  | Call.update now => (TokenBucket.Update d now b).state
  | Call.restore amount => (TokenBucket.Restore d amount b).state
  | Call.consume now amount => (TokenBucket.Consume d now amount b).state
  | Call.count now => (TokenBucket.Count d now b).state
  | Call.reset => (TokenBucket.Reset d b).state

/-- The buckets after each call of a sequence, in order (one entry per call). -/
def trajectory (d : Defs) : List Call → TokenBucket → List TokenBucket
  | [], _ => []
  | c :: cs, b => Call.apply d c b :: trajectory d cs (Call.apply d c b)

/-- The calls of a sequence made of `Update` and `Restore` only. -/
def Call.isUpdateOrRestore : Call → Bool
  | Call.update _ => true
  | Call.restore _ => true
  | _ => false

/-- The capacity invariant `0 ≤ tokens ≤ max_tokens`. -/
def InRange (b : TokenBucket) : Prop :=
  0 ≤ b._tokens ∧ b._tokens ≤ b._max_tokens

/-- A call is well-formed for the bucket it is applied to: the clock reading of an `Update()` is
not before the bucket's last update (non-negative elapsed time) and amounts are not negative. -/
def Call.wellFormed (d : Defs) (c : Call) (b : TokenBucket) : Prop :=
  match c with
  | Call.update now => b._last_update_time ≤ now
  | Call.restore amount => 0 ≤ amount
  | Call.consume now amount => (d.AutoUpdate = true → b._last_update_time ≤ now) ∧ 0 ≤ amount
  | Call.count now => d.AutoUpdate = true → b._last_update_time ≤ now
  | Call.reset => True

/-- Every call of the sequence is well-formed for the bucket it finds. -/
def wellFormedSeq (d : Defs) : List Call → TokenBucket → Prop
  | [], _ => True
  | c :: cs, b => Call.wellFormed d c b ∧ wellFormedSeq d cs (Call.apply d c b)

/-- The calls of a sequence, each as the pair of the bucket it finds and the bucket it leaves. -/
def transitions (d : Defs) : List Call → TokenBucket → List (TokenBucket × TokenBucket)
  | [], _ => []
  | c :: cs, b => (b, Call.apply d c b) :: transitions d cs (Call.apply d c b)

/-- Lock discipline of the trace of one call, read from left to right with the list `held` of
the mutexes the calling thread holds: a mutex is locked only when not held, unlocked only when
held, a callback is invoked only when nothing is held, and nothing is held at the end. -/
def lockDiscipline : List Mutex → List Event → Bool
  | held, [] => held.isEmpty
  | held, Event.lock m :: es => decide (m ∉ held) && lockDiscipline (m :: held) es
  | held, Event.unlock m :: es => decide (m ∈ held) && lockDiscipline (held.erase m) es
  | held, Event.callback _ _ :: es => held.isEmpty && lockDiscipline held es

/-- A bucket built by the constructor at clock reading `now` with the callback member then
assigned, as in `TokenBucket bucket(starting, max, rate); bucket.OnBucketExhausted = callback;`
(`callback = none`: the member is left null). -/
def newWithCallback (now : TimePoint) (starting max rate : ℚ)
    (callback : Option BucketCallback) : TokenBucket :=
  { TokenBucket.new now starting max rate with OnBucketExhausted := callback }

/-- A bucket as the constructor leaves it on well-formed arguments, and as the operations keep
it: balance and starting value within `0 .. max_tokens`, replenish rate not negative. -/
def WellBuilt (b : TokenBucket) : Prop :=
  InRange b ∧ 0 ≤ b._starting_count ∧ b._starting_count ≤ b._max_tokens ∧ 0 ≤ b._replenish_rate

/-- Flags of the demo program `test.cpp` (it sets `ResetWhenConsumed`), with locking and
auto-update switched on. -/
def testDefs : Defs :=
  { ThreadSafe := true, DefaultCategoryId := 0, ResetWhenConsumed := true, AutoUpdate := true }

/-- The bucket of the demo program, `starting=5, max=10, rate=1`, built at clock reading `now`
with the callback `fn` attached. -/
def testBucket (now : TimePoint) (fn : BucketCallback) : TokenBucket :=
  { TokenBucket.new now 5 10 1 with OnBucketExhausted := some fn }

/-- A registry holding the demo bucket at the demo key `(5, 15)`, built at clock reading 0. -/
def testManager : AlertsManager :=
  (AlertsManager.CreateBucket testDefs 0 0 5 15 5 10 1 (some 7) AlertsManager.new).state

/-! ## Double arithmetic with rounding

The definitions above compute with exact rationals.  The ones below follow the same source
statements with every `double` operation rounded: `fl` is the rounding applied to the exact
result of each addition, subtraction, multiplication, division and integer conversion (one
rounding per operation, no fused multiply-add).  With `fl = id` they are the exact ones, with
`fl = binary64` they compute what IEEE 754 double precision computes as long as no result
overflows or falls into the subnormal range. -/

/-- Floor of the binary logarithm of `n` for `n ≥ 1` (and 0 for `n = 0`), by halving at most
`fuel` times. -/
def log2Fuel : Nat → Nat → Nat
  | 0, _ => 0
  | fuel + 1, n => if n < 2 then 0 else log2Fuel fuel (n / 2) + 1

/-- The power `2 ^ e` for an integer exponent. -/
def scale2 (e : Int) : ℚ :=
  if 0 ≤ e then ((2 ^ e.toNat : Nat) : ℚ) else 1 / ((2 ^ (-e).toNat : Nat) : ℚ)

/-- Floor of the binary logarithm of `|q|` for a rational `q ≠ 0`. -/
def ilog2 (q : ℚ) : Int :=
  let k : Int := (log2Fuel q.num.natAbs q.num.natAbs : Int) - (log2Fuel q.den q.den : Int)
  if scale2 k ≤ |q| then k else k - 1

/-- Nearest integer, a tie going to the even one. -/
def halfEven (y : ℚ) : Int :=
  let f := ⌊y⌋
  let r := y - f
  if r < 1 / 2 then f else if 1 / 2 < r then f + 1 else if f % 2 = 0 then f else f + 1

/-- Rounding to double precision: the nearest number with a 53-bit significand, ties to even
(the default IEEE 754 rounding of binary64, with the exponent range left unbounded). -/
def binary64 (q : ℚ) : ℚ :=
  if q = 0 then 0 else
    let e := ilog2 q - 52
    (halfEven (q / scale2 e) : ℚ) * scale2 e

namespace AccurateClock

/-- The computation of `AccurateClock::DiffSeconds` in rounded arithmetic: the tick count is
converted to `double`, then divided by `1000000000`. -/
def DiffSecondsRounded (fl : ℚ → ℚ) (prev_t now_t : TimePoint) : ℚ :=
  if now_t = prev_t then 0 else fl (fl ((now_t - prev_t : Int) : ℚ) / 1000000000)

end AccurateClock

namespace TokenBucket

/-- The method `TokenBucket::Update` in rounded arithmetic. -/
def UpdateRounded (fl : ℚ → ℚ) (d : Defs) (now : TimePoint) (b : TokenBucket) :
    Outcome TokenBucket Unit :=
  let dt := AccurateClock.DiffSecondsRounded fl b._last_update_time now
  if dt = 0 then
    { ret := (), state := b, trace := [] }
  else
    let b1 := { b with _last_update_time := now }
    let b2 := { b1 with _tokens := fl (b1._tokens + fl (dt * b1._replenish_rate)) }
    let b3 := if b2._tokens > b2._max_tokens then { b2 with _tokens := b2._max_tokens } else b2
    { ret := (), state := b3, trace := lockIf d Mutex.bucket ++ unlockIf d Mutex.bucket }

/-- The bucket on which `TokenBucket::Consume` decides, in rounded arithmetic. -/
def refreshedRounded (fl : ℚ → ℚ) (d : Defs) (now : TimePoint) (b : TokenBucket) :
    Outcome TokenBucket Unit :=
  if d.AutoUpdate then UpdateRounded fl d now b else { ret := (), state := b, trace := [] }

/-- The method `TokenBucket::Consume` in rounded arithmetic. -/
def ConsumeRounded (fl : ℚ → ℚ) (d : Defs) (now : TimePoint) (amount : ℚ) (b : TokenBucket) :
    Outcome TokenBucket Bool :=
  let u := refreshedRounded fl d now b
  let b0 := u.state
  if b0._tokens ≥ amount then
    let b1 := { b0 with _tokens := fl (b0._tokens - amount) }
    let b2 := { b1 with _total_consumption := fl (b1._total_consumption + amount) }
    { ret := true, state := b2,
      trace := u.trace ++ lockIf d Mutex.bucket ++ unlockIf d Mutex.bucket }
  else
    let b1 := { b0 with _total_consumption := fl (b0._total_consumption + b0._tokens) }
    let b2 := { b1 with _tokens := 0 }
    let call := match b2.OnBucketExhausted with
      | some fn => [Event.callback fn b2]
      | none => []
    { ret := false, state := b2,
      trace := u.trace ++ lockIf d Mutex.bucket ++ unlockIf d Mutex.bucket ++ call }

end TokenBucket

/-- The bucket after a sequence of `Consume` attempts, each given as (clock reading, amount),
in rounded arithmetic. -/
def consumeAllRounded (fl : ℚ → ℚ) (d : Defs) :
    List (TimePoint × ℚ) → TokenBucket → TokenBucket
  | [], b => b
  | (now, amount) :: rest, b =>
    consumeAllRounded fl d rest (TokenBucket.ConsumeRounded fl d now amount b).state

/-- What one `Consume` attempt hands to `_total_consumption +=`: the requested amount when it
succeeds, the balance on which it decided when it fails. -/
def counted (fl : ℚ → ℚ) (d : Defs) (now : TimePoint) (amount : ℚ) (b : TokenBucket) : ℚ :=
  if (TokenBucket.ConsumeRounded fl d now amount b).ret = true then amount
  else (TokenBucket.refreshedRounded fl d now b).state._tokens

/-- Tokens one `Consume` attempt removes from the balance: the balance on which it decided
minus the balance it leaves. -/
def removed (fl : ℚ → ℚ) (d : Defs) (now : TimePoint) (amount : ℚ) (b : TokenBucket) : ℚ :=
  (TokenBucket.refreshedRounded fl d now b).state._tokens -
    (TokenBucket.ConsumeRounded fl d now amount b).state._tokens

/-- The values `counted` of the attempts of a sequence, in order. -/
def countedAll (fl : ℚ → ℚ) (d : Defs) : List (TimePoint × ℚ) → TokenBucket → List ℚ
  | [], _ => []
  | (now, amount) :: rest, b =>
    counted fl d now amount b ::
      countedAll fl d rest (TokenBucket.ConsumeRounded fl d now amount b).state

/-- The values `removed` of the attempts of a sequence, in order. -/
def removedAll (fl : ℚ → ℚ) (d : Defs) : List (TimePoint × ℚ) → TokenBucket → List ℚ
  | [], _ => []
  | (now, amount) :: rest, b =>
    removed fl d now amount b ::
      removedAll fl d rest (TokenBucket.ConsumeRounded fl d now amount b).state

/-- A counter to which the values of a list are added one by one, each addition rounded, as
`_total_consumption +=` does. -/
def accumulate (fl : ℚ → ℚ) (start : ℚ) (xs : List ℚ) : ℚ :=
  xs.foldl (fun acc x => fl (acc + x)) start

/-! ## Theorems -/

namespace AccurateClock

theorem DiffSeconds_nonneg (prev_t now_t : TimePoint) (h : prev_t ≤ now_t) :
    0 ≤ DiffSeconds prev_t now_t := by
  unfold DiffSeconds
  split_ifs
  · exact le_refl 0
  · apply div_nonneg
    · exact_mod_cast sub_nonneg.mpr h
    · norm_num

theorem DiffSeconds_eq_zero_iff (prev_t now_t : TimePoint) :
    DiffSeconds prev_t now_t = 0 ↔ now_t = prev_t := by
  unfold DiffSeconds
  constructor
  · intro h
    by_contra hne
    rw [if_neg hne] at h
    have h2 : ((now_t - prev_t : Int) : ℚ) = 0 := by
      rcases div_eq_zero_iff.mp h with h1 | h1
      · exact h1
      · norm_num at h1
    have h3 : now_t - prev_t = 0 := by exact_mod_cast h2
    exact hne (sub_eq_zero.mp h3)
  · intro h
    rw [if_pos h]

end AccurateClock

theorem invocations_guarded_append (d : Defs) (m : Mutex) (es : List Event) :
    invocations (lockIf d m ++ unlockIf d m ++ es) = invocations es := by
  unfold lockIf unlockIf
  cases d.ThreadSafe <;> simp [invocations]

theorem invocations_guarded (d : Defs) (m : Mutex) :
    invocations (lockIf d m ++ unlockIf d m) = [] := by
  have h := invocations_guarded_append d m []
  simpa [invocations] using h

theorem invocations_append_quiet (es fs : List Event) (h : invocations es = []) :
    invocations (es ++ fs) = invocations fs := by
  induction es with
  | nil => rfl
  | cons e es ih =>
    cases e with
    | lock m => simpa [invocations] using ih (by simpa [invocations] using h)
    | unlock m => simpa [invocations] using ih (by simpa [invocations] using h)
    | callback f x => simp [invocations] at h

namespace TokenBucket

theorem Update_invocations (d : Defs) (now : TimePoint) (b : TokenBucket) :
    invocations (Update d now b).trace = [] := by
  unfold Update
  simp only []
  split_ifs <;> first | rfl | exact invocations_guarded d _

theorem Update_callback (d : Defs) (now : TimePoint) (b : TokenBucket) :
    (Update d now b).state.OnBucketExhausted = b.OnBucketExhausted := by
  unfold Update
  simp only []
  split_ifs <;> rfl

theorem refreshed_total (d : Defs) (now : TimePoint) (b : TokenBucket) :
    (refreshed d now b).state._total_consumption = b._total_consumption := by
  unfold refreshed Update
  simp only []
  split_ifs <;> rfl

/-- C1: `Consume` decides on the replenished balance `t` (the balance after `Update()` when
auto-update is enabled, the stored balance when it is disabled): it returns true exactly when
`t ≥ amount`, leaving `t - amount`, and otherwise returns false leaving `0`. -/
theorem Consume_decides_on_replenished_balance (d : Defs) (now : TimePoint) (amount : ℚ)
    (b : TokenBucket) :
    let t := if d.AutoUpdate then (Update d now b).state._tokens else b._tokens
    (Consume d now amount b).ret = decide (t ≥ amount) ∧
    (Consume d now amount b).state._tokens = if t ≥ amount then t - amount else 0 := by
  intro t
  have ht : (refreshed d now b).state._tokens = t := by
    unfold refreshed
    split_ifs <;> simp_all [t]
  unfold Consume
  simp only [ht]
  split_ifs with h <;> simp [h]


theorem Update_inRange (d : Defs) (now : TimePoint) (b : TokenBucket) (hb : InRange b)
    (hr : 0 ≤ b._replenish_rate) (ht : b._last_update_time ≤ now) :
    InRange (Update d now b).state ∧ (Update d now b).state._replenish_rate = b._replenish_rate := by
  have hdt := AccurateClock.DiffSeconds_nonneg _ _ ht
  have hadd : 0 ≤ AccurateClock.DiffSeconds b._last_update_time now * b._replenish_rate :=
    mul_nonneg hdt hr
  obtain ⟨h0, h1⟩ := hb
  unfold Update InRange
  simp only []
  split_ifs with hz hgt
  · exact ⟨⟨h0, h1⟩, rfl⟩
  · exact ⟨⟨le_trans h0 h1, le_refl _⟩, rfl⟩
  · refine ⟨⟨?_, ?_⟩, rfl⟩
    · show 0 ≤ b._tokens + _
      linarith
    · exact not_lt.mp hgt

theorem Restore_inRange (d : Defs) (amount : ℚ) (b : TokenBucket) (hb : InRange b)
    (ha : 0 ≤ amount) :
    InRange (Restore d amount b).state ∧
      (Restore d amount b).state._replenish_rate = b._replenish_rate := by
  obtain ⟨h0, h1⟩ := hb
  unfold Restore InRange
  simp only []
  split_ifs with hgt
  · exact ⟨⟨le_trans h0 h1, le_refl _⟩, rfl⟩
  · refine ⟨⟨?_, not_lt.mp hgt⟩, rfl⟩
    show 0 ≤ b._tokens + amount
    linarith


theorem Consume_enough (d : Defs) (now : TimePoint) (amount : ℚ) (b : TokenBucket)
    (h : (refreshed d now b).state._tokens ≥ amount) :
    (Consume d now amount b).ret = true ∧
    (Consume d now amount b).state._tokens = (refreshed d now b).state._tokens - amount ∧
    (Consume d now amount b).state._total_consumption = b._total_consumption + amount := by
  have ht := refreshed_total d now b
  unfold Consume
  simp only [if_pos h, ht, and_self]

theorem Consume_short (d : Defs) (now : TimePoint) (amount : ℚ) (b : TokenBucket)
    (h : ¬ (refreshed d now b).state._tokens ≥ amount) :
    (Consume d now amount b).ret = false ∧
    (Consume d now amount b).state._tokens = 0 ∧
    (Consume d now amount b).state._total_consumption =
      b._total_consumption + (refreshed d now b).state._tokens := by
  have ht := refreshed_total d now b
  unfold Consume
  simp only [if_neg h, ht, and_self]

theorem consumption_accounting_step (d : Defs) (now : TimePoint) (amount : ℚ)
    (b : TokenBucket) :
    (Consume d now amount b).state._total_consumption - b._total_consumption =
      (if (Consume d now amount b).ret = true then amount
       else (refreshed d now b).state._tokens) := by
  by_cases h : (refreshed d now b).state._tokens ≥ amount
  · obtain ⟨h1, _, h3⟩ := Consume_enough d now amount b h
    rw [h1, h3]
    simp
  · obtain ⟨h1, _, h3⟩ := Consume_short d now amount b h
    rw [h1, h3]
    simp

theorem Consume_decides_on_refreshed (d : Defs) (now : TimePoint) (amount : ℚ)
    (b : TokenBucket) :
    (Consume d now amount b).ret = decide ((refreshed d now b).state._tokens ≥ amount) ∧
    (Consume d now amount b).state._tokens =
      (if (refreshed d now b).state._tokens ≥ amount
       then (refreshed d now b).state._tokens - amount else 0) ∧
    (Consume d now amount b).state._last_update_time =
      (refreshed d now b).state._last_update_time := by
  unfold Consume
  simp only []
  split_ifs with h <;> simp [h]

end TokenBucket

/-- C2 (amended): for a bucket that starts with `0 ≤ tokens ≤ max_tokens` and a non-negative
replenish rate, after each call of a sequence of `Update` calls with non-negative elapsed time
and `Restore` calls with non-negative amounts the balance is within `0 ≤ tokens ≤ max_tokens`. -/
theorem capacity_invariant_Update_Restore (d : Defs) (cs : List Call) (b : TokenBucket)
    (hcs : ∀ c ∈ cs, Call.isUpdateOrRestore c = true) (hb : InRange b)
    (hr : 0 ≤ b._replenish_rate) (hwf : wellFormedSeq d cs b) :
    ∀ s ∈ trajectory d cs b, 0 ≤ s._tokens ∧ s._tokens ≤ s._max_tokens := by
  induction cs generalizing b with
  | nil => intro s hs; simp [trajectory] at hs
  | cons c cs ih =>
    obtain ⟨hc, hrest⟩ := hwf
    have hkind := hcs c (List.mem_cons_self c cs)
    have hstep : InRange (Call.apply d c b) ∧
        (Call.apply d c b)._replenish_rate = b._replenish_rate := by
      cases c with
      | update now => exact TokenBucket.Update_inRange d now b hb hr hc
      | restore amount => exact TokenBucket.Restore_inRange d amount b hb hc
      | consume now amount => simp [Call.isUpdateOrRestore] at hkind
      | count now => simp [Call.isUpdateOrRestore] at hkind
      | reset => simp [Call.isUpdateOrRestore] at hkind
    intro s hs
    simp only [trajectory, List.mem_cons] at hs
    rcases hs with hs | hs
    · subst hs
      exact hstep.1
    · exact ih (Call.apply d c b) (fun c' hc' => hcs c' (List.mem_cons_of_mem c hc')) hstep.1
        (by rw [hstep.2]; exact hr) hrest s hs

/-- C2 (witness): a well-formed sequence on the bucket `(5, 10, 1)`, three seconds of
replenishment and a `Restore(20)`; the invariant holds for the bucket it ends in. -/
theorem capacity_invariant_Update_Restore_witness :
    InRange (TokenBucket.new 0 5 10 1) ∧
    0 ≤ (Call.apply testDefs (Call.restore 20)
          (Call.apply testDefs (Call.update 3000000000) (TokenBucket.new 0 5 10 1)))._tokens ∧
    (Call.apply testDefs (Call.restore 20)
          (Call.apply testDefs (Call.update 3000000000) (TokenBucket.new 0 5 10 1)))._tokens ≤
      (Call.apply testDefs (Call.restore 20)
          (Call.apply testDefs (Call.update 3000000000) (TokenBucket.new 0 5 10 1)))._max_tokens :=
  ⟨by norm_num [InRange, TokenBucket.new],
   capacity_invariant_Update_Restore testDefs [Call.update 3000000000, Call.restore 20]
    (TokenBucket.new 0 5 10 1)
    (by simp [Call.isUpdateOrRestore])
    (by norm_num [InRange, TokenBucket.new])
    (by norm_num [TokenBucket.new])
    (by norm_num [wellFormedSeq, Call.wellFormed, Call.apply, TokenBucket.new,
      TokenBucket.Update, AccurateClock.DiffSeconds])
    _ (by simp [trajectory])⟩

/-- C2 (counterexample): the invariant as stated fails on sequences of one call.  `Restore(-20)`
on a bucket `(5, 10, 1)` leaves `-15`; a zero-elapsed `Update()` on a bucket built with
`starting=20, max=10` leaves `20 > 10`; `Update()` after ten seconds on a bucket with rate `-1`
leaves `-5`. -/
theorem capacity_invariant_counterexample :
    (¬ ∀ s ∈ trajectory testDefs [Call.restore (-20)] (TokenBucket.new 0 5 10 1),
        0 ≤ s._tokens ∧ s._tokens ≤ s._max_tokens) ∧
    (¬ ∀ s ∈ trajectory testDefs [Call.update 0] (TokenBucket.new 0 20 10 1),
        0 ≤ s._tokens ∧ s._tokens ≤ s._max_tokens) ∧
    (¬ ∀ s ∈ trajectory testDefs [Call.update 10000000000] (TokenBucket.new 0 5 10 (-1)),
        0 ≤ s._tokens ∧ s._tokens ≤ s._max_tokens) ∧
    (TokenBucket.Restore testDefs (-20) (TokenBucket.new 0 5 10 1)).state._tokens = -15 ∧
    (TokenBucket.Update testDefs 0 (TokenBucket.new 0 20 10 1)).state._tokens = 20 ∧
    (TokenBucket.Update testDefs 10000000000 (TokenBucket.new 0 5 10 (-1))).state._tokens
      = -5 := by
  refine ⟨?_, ?_, ?_, ?_, ?_, ?_⟩ <;>
    norm_num [trajectory, Call.apply, TokenBucket.new, TokenBucket.Restore, TokenBucket.Update,
      AccurateClock.DiffSeconds]

/-- C4: on a bucket with a callback attached, a `Consume` that returns false invokes that
callback exactly once (handing it the bucket as the call leaves it), a `Consume` that returns
true invokes nothing, and `Restore`, `Reset` and `Update` invoke nothing. -/
theorem callback_once_per_failed_Consume (d : Defs) (now : TimePoint) (amount : ℚ)
    (b : TokenBucket) (fn : BucketCallback) (hfn : b.OnBucketExhausted = some fn) :
    invocations (TokenBucket.Consume d now amount b).trace =
        (if (TokenBucket.Consume d now amount b).ret = true then []
         else [(fn, (TokenBucket.Consume d now amount b).state)]) ∧
    invocations (TokenBucket.Restore d amount b).trace = [] ∧
    invocations (TokenBucket.Reset d b).trace = [] ∧
    invocations (TokenBucket.Update d now b).trace = [] := by
  have href : invocations (TokenBucket.refreshed d now b).trace = [] ∧
      (TokenBucket.refreshed d now b).state.OnBucketExhausted = some fn := by
    unfold TokenBucket.refreshed
    split_ifs
    · exact ⟨TokenBucket.Update_invocations d now b,
        (TokenBucket.Update_callback d now b).trans hfn⟩
    · exact ⟨rfl, hfn⟩
  refine ⟨?_, invocations_guarded d _, invocations_guarded d _,
    TokenBucket.Update_invocations d now b⟩
  unfold TokenBucket.Consume
  simp only []
  split_ifs with h
  · simp only [List.append_assoc] at *
    rw [invocations_append_quiet _ _ href.1]
    exact invocations_guarded d _
  · simp at *
  · simp at *
  · simp only [List.append_assoc, href.2]
    rw [invocations_append_quiet _ _ href.1, ← List.append_assoc, invocations_guarded_append]
    rfl

/-- C4 (witness): the demo bucket with callback `7`, asked for more than it holds. -/
theorem callback_once_per_failed_Consume_witness :
    (testBucket 0 7).OnBucketExhausted = some 7 ∧
    (invocations (TokenBucket.Consume testDefs 0 6 (testBucket 0 7)).trace =
        (if (TokenBucket.Consume testDefs 0 6 (testBucket 0 7)).ret = true then []
         else [(7, (TokenBucket.Consume testDefs 0 6 (testBucket 0 7)).state)]) ∧
      invocations (TokenBucket.Restore testDefs 6 (testBucket 0 7)).trace = [] ∧
      invocations (TokenBucket.Reset testDefs (testBucket 0 7)).trace = [] ∧
      invocations (TokenBucket.Update testDefs 0 (testBucket 0 7)).trace = []) :=
  ⟨rfl, callback_once_per_failed_Consume testDefs 0 6 (testBucket 0 7) 7 rfl⟩

/-- C8: the scenario on the bucket `starting=5, max=10, rate=1` with callback `C` and
auto-update enabled.  `Consume(4)` at the creation time returns true and leaves balance 1 and
total 4; `Consume(2)` at the same time returns false, leaves balance 0 and total 5 and invokes
`C` once; `Count()` three seconds later returns 3; `Restore(20)` then leaves balance 10. -/
theorem concrete_scenario (d : Defs) (t0 : TimePoint) (C : BucketCallback) :
    let cfg : Defs := { d with AutoUpdate := true }
    let r1 := TokenBucket.Consume cfg t0 4 (testBucket t0 C)
    let r2 := TokenBucket.Consume cfg t0 2 r1.state
    let r3 := TokenBucket.Count cfg (t0 + 3000000000) r2.state
    let r4 := TokenBucket.Restore cfg 20 r3.state
    (r1.ret = true ∧ r1.state._tokens = 1 ∧ r1.state._total_consumption = 4 ∧
      invocations r1.trace = []) ∧
    (r2.ret = false ∧ r2.state._tokens = 0 ∧ r2.state._total_consumption = 5 ∧
      invocations r2.trace = [(C, r2.state)]) ∧
    r3.ret = 3 ∧
    r4.state._tokens = 10 := by
  have hdiff : AccurateClock.DiffSeconds t0 (t0 + 3000000000) = 3 := by
    have hne : ¬ (t0 + 3000000000 = t0) := by
      intro h
      have h2 : (3000000000 : Int) = 0 := by linarith
      norm_num at h2
    unfold AccurateClock.DiffSeconds
    rw [if_neg hne]
    norm_num
  have hzero : AccurateClock.DiffSeconds t0 t0 = 0 := by
    simp [AccurateClock.DiffSeconds]
  intro cfg r1 r2 r3 r4
  have s1 : r1 = Outcome.mk true (TokenBucket.mk 1 1 10 5 4 t0 (some C))
      (lockIf cfg Mutex.bucket ++ unlockIf cfg Mutex.bucket) := by
    simp only [r1, cfg, TokenBucket.Consume, TokenBucket.refreshed, TokenBucket.Update,
      testBucket, TokenBucket.new, hzero]
    norm_num
  have s2 : r2 = Outcome.mk false (TokenBucket.mk 0 1 10 5 5 t0 (some C))
      (lockIf cfg Mutex.bucket ++ unlockIf cfg Mutex.bucket ++
        [Event.callback C (TokenBucket.mk 0 1 10 5 5 t0 (some C))]) := by
    simp only [r2, s1, cfg, TokenBucket.Consume, TokenBucket.refreshed, TokenBucket.Update,
      hzero]
    norm_num
  have s3 : r3.ret = 3 ∧
      r3.state = TokenBucket.mk 3 1 10 5 5 (t0 + 3000000000) (some C) := by
    simp only [r3, s2, cfg, TokenBucket.Count, TokenBucket.refreshed, TokenBucket.Update,
      hdiff]
    norm_num
  have s4 : r4.state._tokens = 10 := by
    simp only [r4, s3.2, TokenBucket.Restore]
    norm_num
  refine ⟨⟨?_, ?_, ?_, ?_⟩, ⟨?_, ?_, ?_, ?_⟩, s3.1, s4⟩
  · rw [s1]
  · rw [s1]
  · rw [s1]
  · rw [s1]; exact invocations_guarded cfg _
  · rw [s2]
  · rw [s2]
  · rw [s2]
  · rw [s2]
    simp only []
    rw [invocations_guarded_append]
    rfl

/-- C10: `Restore(amount)` leaves the balance `min(tokens + amount, max_tokens)`, leaves
`total_consumed`, `starting_tokens`, `max_tokens`, `replenish_rate`, `last_update` and the
callback member unchanged, and invokes no callback. -/
theorem Restore_clamped_add (d : Defs) (amount : ℚ) (b : TokenBucket) :
    (TokenBucket.Restore d amount b).state._tokens = min (b._tokens + amount) b._max_tokens ∧
    (TokenBucket.Restore d amount b).state._total_consumption = b._total_consumption ∧
    (TokenBucket.Restore d amount b).state._starting_count = b._starting_count ∧
    (TokenBucket.Restore d amount b).state._max_tokens = b._max_tokens ∧
    (TokenBucket.Restore d amount b).state._replenish_rate = b._replenish_rate ∧
    (TokenBucket.Restore d amount b).state._last_update_time = b._last_update_time ∧
    (TokenBucket.Restore d amount b).state.OnBucketExhausted = b.OnBucketExhausted ∧
    invocations (TokenBucket.Restore d amount b).trace = [] := by
  refine ⟨?_, ?_, ?_, ?_, ?_, ?_, ?_, invocations_guarded d _⟩
  · unfold TokenBucket.Restore
    simp only []
    split_ifs with hgt
    · exact (min_eq_right (le_of_lt hgt)).symm
    · exact (min_eq_left (not_lt.mp hgt)).symm
  all_goals
    unfold TokenBucket.Restore
    simp only []
    split_ifs <;> rfl

namespace AlertsManager

theorem find_store_same (cat_id : CategoryId) (bucket_id : BucketId) (b : TokenBucket)
    (m : AlertsManager) : find (store cat_id bucket_id b m) cat_id bucket_id = some b := by
  simp [find, store]

theorem find_store_other (cat_id : CategoryId) (bucket_id : BucketId) (b : TokenBucket)
    (m : AlertsManager) (c : CategoryId) (i : BucketId) (h : cat_id ≠ c ∨ bucket_id ≠ i) :
    find (store cat_id bucket_id b m) c i = find m c i := by
  unfold find store
  simp only []
  by_cases hc : c = cat_id
  · subst hc
    have hi : i ≠ bucket_id := by
      rcases h with h | h
      · exact absurd rfl h
      · exact fun e => h e.symm
    simp only [Function.update_same]
    cases hm : m._buckets c <;> simp [Function.update_noteq hi]
  · simp only [Function.update_noteq hc]

theorem store_Enabled (cat_id : CategoryId) (bucket_id : BucketId) (b : TokenBucket)
    (m : AlertsManager) : (store cat_id bucket_id b m).Enabled = m.Enabled := rfl

theorem index_store (now : TimePoint) (cat_id : CategoryId) (bucket_id : BucketId)
    (b : TokenBucket) (m : AlertsManager) :
    index now cat_id bucket_id (store cat_id bucket_id b m) = (b, store cat_id bucket_id b m) := by
  simp [index, store]

theorem index_fst (now : TimePoint) (cat_id : CategoryId) (bucket_id : BucketId)
    (m : AlertsManager) :
    (index now cat_id bucket_id m).1 =
      (find m cat_id bucket_id).getD (TokenBucket.newDefault now) := by
  unfold index find
  cases hm : m._buckets cat_id with
  | none => simp
  | some inner => cases hi : inner bucket_id <;> simp [hi]

theorem find_index_same (now : TimePoint) (cat_id : CategoryId) (bucket_id : BucketId)
    (m : AlertsManager) :
    find (index now cat_id bucket_id m).2 cat_id bucket_id =
      some (index now cat_id bucket_id m).1 := by
  unfold index find
  cases hm : m._buckets cat_id with
  | none => simp
  | some inner => cases hi : inner bucket_id <;> simp [hi, hm]

theorem find_index_other (now : TimePoint) (cat_id : CategoryId) (bucket_id : BucketId)
    (m : AlertsManager) (c : CategoryId) (i : BucketId) (h : cat_id ≠ c ∨ bucket_id ≠ i) :
    find (index now cat_id bucket_id m).2 c i = find m c i := by
  unfold index find
  cases hm : m._buckets cat_id with
  | none =>
    simp only []
    by_cases hc : c = cat_id
    · subst hc
      have hi : i ≠ bucket_id := by
        rcases h with h | h
        · exact absurd rfl h
        · exact fun e => h e.symm
      simp [hm, Function.update_noteq hi]
    · simp [Function.update_noteq hc]
  | some inner =>
    cases hb : inner bucket_id with
    | some b => simp only [hb]
    | none =>
      simp only [hb]
      by_cases hc : c = cat_id
      · subst hc
        have hi : i ≠ bucket_id := by
          rcases h with h | h
          · exact absurd rfl h
          · exact fun e => h e.symm
        simp [hm, Function.update_noteq hi]
      · simp [Function.update_noteq hc]

theorem index_present (now : TimePoint) (cat_id : CategoryId) (bucket_id : BucketId)
    (m : AlertsManager) (b : TokenBucket) (h : find m cat_id bucket_id = some b) :
    index now cat_id bucket_id m = (b, m) := by
  unfold find at h
  unfold index
  cases hm : m._buckets cat_id with
  | none => simp [hm] at h
  | some inner =>
    simp only [hm] at h
    simp [h]

end AlertsManager

/-- C5: on an enabled registry `AlertsManager::Consume` returns what the bucket's `Consume`
returns and leaves at the key the bucket that call produced, reset to its `starting_tokens`
exactly when the call returned false and `ResetWhenConsumed` is set; the reset keeps
`total_consumed`, which has grown by the balance drained by the failed attempt. -/
theorem reset_on_consumed_policy (d : Defs) (tGet tUpd tReset : TimePoint) (cat_id : CategoryId)
    (bucket_id : BucketId) (amount : ℚ) (m : AlertsManager) (hE : m.Enabled = true) :
    let b0 := (AlertsManager.GetBucket tGet cat_id bucket_id m).1
    let r := TokenBucket.Consume d tUpd amount b0
    let R := AlertsManager.Consume d tGet tUpd tReset cat_id bucket_id amount m
    R.ret = r.ret ∧
    AlertsManager.find R.state cat_id bucket_id =
      some (if r.ret = false ∧ d.ResetWhenConsumed = true
            then TokenBucket.mk r.state._starting_count r.state._replenish_rate
                   r.state._max_tokens r.state._starting_count r.state._total_consumption
                   r.state._last_update_time r.state.OnBucketExhausted
            else r.state) ∧
    r.state._total_consumption = b0._total_consumption +
      (if r.ret = true then amount else (TokenBucket.refreshed d tUpd b0).state._tokens) := by
  intro b0 r R
  have htot : r.state._total_consumption = b0._total_consumption +
      (if r.ret = true then amount else (TokenBucket.refreshed d tUpd b0).state._tokens) := by
    have h := TokenBucket.consumption_accounting_step d tUpd amount b0
    linarith
  refine ⟨?_, ?_, htot⟩
  · simp only [R, AlertsManager.Consume, hE]
    simp only [Bool.not_true, Bool.false_eq_true, if_false]
    split_ifs <;> rfl
  · simp only [R, AlertsManager.Consume, hE]
    simp only [Bool.not_true, Bool.false_eq_true, if_false]
    by_cases hreset : (!r.ret && d.ResetWhenConsumed) = true
    · have hcond : r.ret = false ∧ d.ResetWhenConsumed = true := by
        simpa using hreset
      rw [if_pos hreset, if_pos hcond]
      simp only [AlertsManager.GetBucket, AlertsManager.index_store,
        AlertsManager.find_store_same, TokenBucket.Reset]
      rfl
    · have hcond : ¬ (r.ret = false ∧ d.ResetWhenConsumed = true) := by
        simpa using hreset
      rw [if_neg hreset, if_neg hcond]
      simp only [AlertsManager.find_store_same]

/-- C5 (witness): the demo registry, whose bucket holds 5 tokens, asked for 6 at the time the
bucket was built; the call fails and the bucket at the key is the reset one. -/
theorem reset_on_consumed_policy_witness :
    testManager.Enabled = true ∧
    (AlertsManager.Consume testDefs 0 0 0 5 15 6 testManager).ret =
      (TokenBucket.Consume testDefs 0 6 (AlertsManager.GetBucket 0 5 15 testManager).1).ret ∧
    AlertsManager.find (AlertsManager.Consume testDefs 0 0 0 5 15 6 testManager).state 5 15 =
      some (if (TokenBucket.Consume testDefs 0 6
                  (AlertsManager.GetBucket 0 5 15 testManager).1).ret = false ∧
                testDefs.ResetWhenConsumed = true
            then TokenBucket.mk
              (TokenBucket.Consume testDefs 0 6
                (AlertsManager.GetBucket 0 5 15 testManager).1).state._starting_count
              (TokenBucket.Consume testDefs 0 6
                (AlertsManager.GetBucket 0 5 15 testManager).1).state._replenish_rate
              (TokenBucket.Consume testDefs 0 6
                (AlertsManager.GetBucket 0 5 15 testManager).1).state._max_tokens
              (TokenBucket.Consume testDefs 0 6
                (AlertsManager.GetBucket 0 5 15 testManager).1).state._starting_count
              (TokenBucket.Consume testDefs 0 6
                (AlertsManager.GetBucket 0 5 15 testManager).1).state._total_consumption
              (TokenBucket.Consume testDefs 0 6
                (AlertsManager.GetBucket 0 5 15 testManager).1).state._last_update_time
              (TokenBucket.Consume testDefs 0 6
                (AlertsManager.GetBucket 0 5 15 testManager).1).state.OnBucketExhausted
            else (TokenBucket.Consume testDefs 0 6
                (AlertsManager.GetBucket 0 5 15 testManager).1).state) :=
  ⟨rfl, (reset_on_consumed_policy testDefs 0 0 0 5 15 6 testManager rfl).1,
   (reset_on_consumed_policy testDefs 0 0 0 5 15 6 testManager rfl).2.1⟩

/-- C6: on a disabled registry `AlertsManager::Consume` returns true whatever the key and the
amount, leaves the manager (the whole bucket map and the flag) as it was and performs no mutex
operation and no callback invocation. -/
theorem disabled_registry (d : Defs) (tGet tUpd tReset : TimePoint) (cat_id : CategoryId)
    (bucket_id : BucketId) (amount : ℚ) (m : AlertsManager) (hE : m.Enabled = false) :
    (AlertsManager.Consume d tGet tUpd tReset cat_id bucket_id amount m).ret = true ∧
    (AlertsManager.Consume d tGet tUpd tReset cat_id bucket_id amount m).state = m ∧
    (AlertsManager.Consume d tGet tUpd tReset cat_id bucket_id amount m).trace = [] := by
  simp [AlertsManager.Consume, hE]

/-- C6 (witness): a disabled registry that holds the demo bucket, asked for 100 tokens at a key
that has no bucket. -/
theorem disabled_registry_witness :
    (AlertsManager.mk testManager._buckets false).Enabled = false ∧
    (AlertsManager.Consume testDefs 0 0 0 6 15 100
        (AlertsManager.mk testManager._buckets false)).ret = true ∧
    (AlertsManager.Consume testDefs 0 0 0 6 15 100
        (AlertsManager.mk testManager._buckets false)).state
      = AlertsManager.mk testManager._buckets false ∧
    (AlertsManager.Consume testDefs 0 0 0 6 15 100
        (AlertsManager.mk testManager._buckets false)).trace = [] :=
  ⟨rfl, disabled_registry testDefs 0 0 0 6 15 100 (AlertsManager.mk testManager._buckets false) rfl⟩

/-- C7: for two distinct keys `(catA, x)` and `(catB, y)`, each of `CreateBucket` (both
overloads), `GetBucket`, `Consume` and `Restore` applied to `(catA, x)` leaves the entry at
`(catB, y)` as it was: the same bucket when one is stored there, absent when none is. -/
theorem category_isolation (d : Defs) (t1 t2 t3 : TimePoint) (catA catB : CategoryId)
    (x y : BucketId) (bucket : TokenBucket) (starting max rate amount : ℚ)
    (callback : Option BucketCallback) (m : AlertsManager) (h : catA ≠ catB ∨ x ≠ y) :
    AlertsManager.find (AlertsManager.CreateBucketValue d t1 catA x bucket m).state catB y
      = AlertsManager.find m catB y ∧
    AlertsManager.find
        (AlertsManager.CreateBucket d t1 t2 catA x starting max rate callback m).state catB y
      = AlertsManager.find m catB y ∧
    AlertsManager.find (AlertsManager.GetBucket t1 catA x m).2 catB y
      = AlertsManager.find m catB y ∧
    AlertsManager.find (AlertsManager.Consume d t1 t2 t3 catA x amount m).state catB y
      = AlertsManager.find m catB y ∧
    AlertsManager.find (AlertsManager.Restore d t1 catA x amount m).state catB y
      = AlertsManager.find m catB y := by
  have hcreate : ∀ (t : TimePoint) (v : TokenBucket),
      AlertsManager.find (AlertsManager.CreateBucketValue d t catA x v m).state catB y
        = AlertsManager.find m catB y := by
    intro t v
    simp only [AlertsManager.CreateBucketValue]
    rw [AlertsManager.find_store_other _ _ _ _ _ _ h, AlertsManager.find_index_other _ _ _ _ _ _ h]
  refine ⟨hcreate t1 bucket, ?_, ?_, ?_, ?_⟩
  · simp only [AlertsManager.CreateBucket]
    exact hcreate t2 _
  · exact AlertsManager.find_index_other _ _ _ _ _ _ h
  · simp only [AlertsManager.Consume, AlertsManager.GetBucket]
    split_ifs
    · rfl
    · rw [AlertsManager.find_store_other _ _ _ _ _ _ h,
        AlertsManager.find_index_other _ _ _ _ _ _ h,
        AlertsManager.find_store_other _ _ _ _ _ _ h,
        AlertsManager.find_index_other _ _ _ _ _ _ h]
    · rw [AlertsManager.find_store_other _ _ _ _ _ _ h,
        AlertsManager.find_index_other _ _ _ _ _ _ h]
  · simp only [AlertsManager.Restore, AlertsManager.GetBucket]
    rw [AlertsManager.find_store_other _ _ _ _ _ _ h,
      AlertsManager.find_index_other _ _ _ _ _ _ h]

/-- C7 (witness): the demo registry holds a bucket at `(5, 15)`; a failing `Consume` on
`(6, 15)`, same bucket id in another category, leaves that entry as it was. -/
theorem category_isolation_witness :
    ((6 : CategoryId) ≠ 5 ∨ (15 : BucketId) ≠ 15) ∧
    AlertsManager.find (AlertsManager.Consume testDefs 0 0 0 6 15 3 testManager).state 5 15
      = AlertsManager.find testManager 5 15 :=
  ⟨Or.inl (by decide),
   (category_isolation testDefs 0 0 0 6 5 15 15 (testBucket 0 7) 5 10 1 3 (some 7) testManager
      (Or.inl (by decide))).2.2.2.1⟩

/-- C11: `Reset()` sets the balance to `starting_tokens` and leaves `total_consumed`,
`last_update`, `max_tokens`, `replenish_rate`, `starting_tokens` and the callback member
unchanged; it invokes no callback and a second `Reset()` changes nothing more. -/
theorem Reset_only_rewinds_balance (d : Defs) (b : TokenBucket) :
    (TokenBucket.Reset d b).state._tokens = b._starting_count ∧
    (TokenBucket.Reset d b).state._total_consumption = b._total_consumption ∧
    (TokenBucket.Reset d b).state._last_update_time = b._last_update_time ∧
    (TokenBucket.Reset d b).state._max_tokens = b._max_tokens ∧
    (TokenBucket.Reset d b).state._replenish_rate = b._replenish_rate ∧
    (TokenBucket.Reset d b).state._starting_count = b._starting_count ∧
    (TokenBucket.Reset d b).state.OnBucketExhausted = b.OnBucketExhausted ∧
    invocations (TokenBucket.Reset d b).trace = [] ∧
    (TokenBucket.Reset d (TokenBucket.Reset d b).state).state = (TokenBucket.Reset d b).state :=
  ⟨rfl, rfl, rfl, rfl, rfl, rfl, rfl, invocations_guarded d _, rfl⟩

/-- C12: the copy constructor copies `tokens`, `starting_tokens`, `max_tokens`,
`replenish_rate` and `total_consumed` and sets `last_update` to the clock reading, but the
copy's callback member is the null pointer whatever the callback of the original: the copy of
the demo bucket with callback `7` has no callback. -/
theorem copy_constructor_drops_callback (now : TimePoint) (b : TokenBucket) :
    (TokenBucket.copy now b)._tokens = b._tokens ∧
    (TokenBucket.copy now b)._starting_count = b._starting_count ∧
    (TokenBucket.copy now b)._max_tokens = b._max_tokens ∧
    (TokenBucket.copy now b)._replenish_rate = b._replenish_rate ∧
    (TokenBucket.copy now b)._total_consumption = b._total_consumption ∧
    (TokenBucket.copy now b)._last_update_time = now ∧
    (TokenBucket.copy now b).OnBucketExhausted = none ∧
    (testBucket 0 7).OnBucketExhausted = some 7 ∧
    (TokenBucket.copy 5 (testBucket 0 7)).OnBucketExhausted ≠ (testBucket 0 7).OnBucketExhausted ∧
    (TokenBucket.assign (TokenBucket.newDefault 5) (testBucket 0 7)).OnBucketExhausted = some 7 :=
  ⟨rfl, rfl, rfl, rfl, rfl, rfl, rfl, rfl, by simp [TokenBucket.copy, testBucket], rfl⟩

/-- C13: after `CreateBucket(cat_id, bucket_id, starting, max, rate, callback)` the bucket
found at the key has `tokens = starting`, `starting_tokens = starting`, `max_tokens = max`,
`replenish_rate = rate`, `total_consumed = 0` and the given callback (and the construction time
as `last_update`), whatever the registry held at that key before. -/
theorem CreateBucket_inserts_or_overwrites (d : Defs) (tNew tSlot : TimePoint)
    (cat_id : CategoryId) (bucket_id : BucketId) (starting max rate : ℚ)
    (callback : Option BucketCallback) (m : AlertsManager) :
    AlertsManager.find
        (AlertsManager.CreateBucket d tNew tSlot cat_id bucket_id starting max rate callback m).state
        cat_id bucket_id
      = some (TokenBucket.mk starting rate max starting 0 tNew callback) := by
  simp only [AlertsManager.CreateBucket, AlertsManager.CreateBucketValue,
    AlertsManager.find_store_same, TokenBucket.assign, TokenBucket.new]

/-- C14: `GetBucket` returns the bucket stored at the key and leaves the manager as it was when
there is one; when there is none it returns the default bucket (`starting_tokens = 0`,
`tokens = 0`, `max_tokens = 10`, `replenish_rate = 1`, `total_consumed = 0`, no callback, built
at the clock reading) and the manager it leaves differs by that bucket stored at the key.  In
both cases the key maps to the returned bucket afterwards. -/
theorem GetBucket_get_or_insert_default (now : TimePoint) (cat_id : CategoryId)
    (bucket_id : BucketId) (m : AlertsManager) :
    (AlertsManager.GetBucket now cat_id bucket_id m).1 =
      (match AlertsManager.find m cat_id bucket_id with
       | some b => b
       | none => TokenBucket.mk 0 1 10 0 0 now none) ∧
    (AlertsManager.GetBucket now cat_id bucket_id m).2 =
      (match AlertsManager.find m cat_id bucket_id with
       | some _ => m
       | none => AlertsManager.store cat_id bucket_id (TokenBucket.mk 0 1 10 0 0 now none) m) ∧
    AlertsManager.find (AlertsManager.GetBucket now cat_id bucket_id m).2 cat_id bucket_id =
      some (AlertsManager.GetBucket now cat_id bucket_id m).1 := by
  refine ⟨?_, ?_, AlertsManager.find_index_same now cat_id bucket_id m⟩
  · unfold AlertsManager.GetBucket AlertsManager.index AlertsManager.find
    cases hm : m._buckets cat_id with
    | none => rfl
    | some inner =>
      cases hi : inner bucket_id
      all_goals simp only [hi]
      all_goals rfl
  · unfold AlertsManager.GetBucket AlertsManager.index AlertsManager.find AlertsManager.store
    cases hm : m._buckets cat_id with
    | none => rfl
    | some inner =>
      cases hi : inner bucket_id
      all_goals simp only [hi]
      all_goals rfl

/-- C15: `AlertsManager::Restore` leaves at the key the bucket that `TokenBucket::Restore`
makes of the bucket `GetBucket` refers to, with the same trace; the bucket map it leaves does
not depend on the `Enabled` flag, and the flag is left as it was. -/
theorem registry_Restore_always_honoured (d : Defs) (now : TimePoint) (cat_id : CategoryId)
    (bucket_id : BucketId) (amount : ℚ) (m : AlertsManager) (enabled : Bool) :
    AlertsManager.find (AlertsManager.Restore d now cat_id bucket_id amount m).state
        cat_id bucket_id =
      some (TokenBucket.Restore d amount
              (AlertsManager.GetBucket now cat_id bucket_id m).1).state ∧
    (AlertsManager.Restore d now cat_id bucket_id amount m).trace =
      (TokenBucket.Restore d amount (AlertsManager.GetBucket now cat_id bucket_id m).1).trace ∧
    (AlertsManager.Restore d now cat_id bucket_id amount m).state.Enabled = m.Enabled ∧
    (AlertsManager.Restore d now cat_id bucket_id amount
        (AlertsManager.mk m._buckets enabled)).state._buckets =
      (AlertsManager.Restore d now cat_id bucket_id amount m).state._buckets ∧
    (AlertsManager.Restore d now cat_id bucket_id amount
        (AlertsManager.mk m._buckets enabled)).state.Enabled = enabled := by
  refine ⟨?_, rfl, ?_, ?_, ?_⟩
  · simp only [AlertsManager.Restore, AlertsManager.find_store_same]
  · unfold AlertsManager.Restore AlertsManager.GetBucket AlertsManager.index AlertsManager.store
    cases hm : m._buckets cat_id with
    | none => rfl
    | some inner => cases hi : inner bucket_id <;> simp only [hi]
  · unfold AlertsManager.Restore AlertsManager.GetBucket AlertsManager.index AlertsManager.store
    cases hm : m._buckets cat_id with
    | none => simp only [hm]
    | some inner => cases hi : inner bucket_id <;> simp only [hm, hi]
  · unfold AlertsManager.Restore AlertsManager.GetBucket AlertsManager.index AlertsManager.store
    cases hm : m._buckets cat_id with
    | none => simp only [hm]
    | some inner => cases hi : inner bucket_id <;> simp only [hm, hi]

/-- C16: after `ResetAll()` every key holds what it held before, reset: an absent entry stays
absent and a stored bucket has `tokens` equal to its own `starting_tokens` with every other
member unchanged; the categories present and the `Enabled` flag are unchanged. -/
theorem ResetAll_resets_every_bucket (d : Defs) (m : AlertsManager) (cat_id : CategoryId)
    (bucket_id : BucketId) :
    AlertsManager.find (AlertsManager.ResetAll d m).state cat_id bucket_id =
      (AlertsManager.find m cat_id bucket_id).map
        (fun b => TokenBucket.mk b._starting_count b._replenish_rate b._max_tokens
          b._starting_count b._total_consumption b._last_update_time b.OnBucketExhausted) ∧
    (AlertsManager.find (AlertsManager.ResetAll d m).state cat_id bucket_id).isSome =
      (AlertsManager.find m cat_id bucket_id).isSome ∧
    ((AlertsManager.ResetAll d m).state._buckets cat_id).isSome = (m._buckets cat_id).isSome ∧
    (AlertsManager.ResetAll d m).state.Enabled = m.Enabled := by
  have h1 : AlertsManager.find (AlertsManager.ResetAll d m).state cat_id bucket_id =
      (AlertsManager.find m cat_id bucket_id).map
        (fun b => TokenBucket.mk b._starting_count b._replenish_rate b._max_tokens
          b._starting_count b._total_consumption b._last_update_time b.OnBucketExhausted) := by
    unfold AlertsManager.ResetAll AlertsManager.find TokenBucket.Reset
    cases hm : m._buckets cat_id with
    | none => simp [hm]
    | some inner => cases hi : inner bucket_id <;> simp [hm, hi]
  refine ⟨h1, ?_, ?_, rfl⟩
  · rw [h1]
    cases AlertsManager.find m cat_id bucket_id <;> rfl
  · unfold AlertsManager.ResetAll
    cases hm : m._buckets cat_id <;> simp [hm]

/-- What `CreateBucket(cat_id, bucket_id, bucket_value)` stores: the assignment `operator=`
makes the stored bucket equal to the value in every member, `last_update` included, whatever
the clock reading `t1` of the registration; an `Update()` on it starts from the value's
`last_update`. -/
theorem CreateBucketValue_stores_value (d : Defs) (t0 t1 now : TimePoint)
    (cat_id : CategoryId) (bucket_id : BucketId) (value : TokenBucket)
    (starting max rate : ℚ) (m : AlertsManager) :
    AlertsManager.find (AlertsManager.CreateBucketValue d t1 cat_id bucket_id value m).state
        cat_id bucket_id = some value ∧
    (AlertsManager.find
        (AlertsManager.CreateBucketValue d t1 cat_id bucket_id
          (TokenBucket.new t0 starting max rate) m).state cat_id bucket_id).map
        (fun b => b._last_update_time) = some t0 ∧
    (TokenBucket.Update d now value).state._tokens =
      (if AccurateClock.DiffSeconds value._last_update_time now = 0 then value._tokens
       else min (value._tokens +
              AccurateClock.DiffSeconds value._last_update_time now * value._replenish_rate)
            value._max_tokens) := by
  refine ⟨?_, ?_, ?_⟩
  · simp only [AlertsManager.CreateBucketValue, AlertsManager.find_store_same,
      TokenBucket.assign]
  · simp only [AlertsManager.CreateBucketValue, AlertsManager.find_store_same,
      TokenBucket.assign, TokenBucket.new, Option.map_some']
  · unfold TokenBucket.Update
    simp only []
    by_cases hz : AccurateClock.DiffSeconds value._last_update_time now = 0
    · simp only [hz, if_true]
    · simp only [hz, if_false]
      split_ifs with hgt
      · exact (min_eq_right (le_of_lt hgt)).symm
      · exact (min_eq_left (not_lt.mp hgt)).symm

/-- C17: a bucket `(5, 10, 1)` built at clock reading 0 and registered through
`CreateBucket(cat_id, bucket_id, bucket_value)` two seconds later is stored with
`last_update = 0`, not `2000000000`, and an `Update()` three seconds after the construction
leaves 8 tokens (three seconds of replenishment), not the 6 that one second since the
registration gives; the copy constructor, on the same value at the same time, does set
`last_update = 2000000000` and leads to 6. -/
theorem CreateBucket_value_keeps_construction_time :
    (AlertsManager.find
        (AlertsManager.CreateBucketValue testDefs 2000000000 5 15 (TokenBucket.new 0 5 10 1)
          AlertsManager.new).state 5 15).map (fun b => b._last_update_time) = some 0 ∧
    (AlertsManager.find
        (AlertsManager.CreateBucketValue testDefs 2000000000 5 15 (TokenBucket.new 0 5 10 1)
          AlertsManager.new).state 5 15).map (fun b => b._last_update_time)
      ≠ some 2000000000 ∧
    (AlertsManager.find
        (AlertsManager.CreateBucketValue testDefs 2000000000 5 15 (TokenBucket.new 0 5 10 1)
          AlertsManager.new).state 5 15).map
        (fun b => (TokenBucket.Update testDefs 3000000000 b).state._tokens) = some 8 ∧
    (TokenBucket.copy 2000000000 (TokenBucket.new 0 5 10 1))._last_update_time = 2000000000 ∧
    (TokenBucket.Update testDefs 3000000000
        (TokenBucket.copy 2000000000 (TokenBucket.new 0 5 10 1))).state._tokens = 6 := by
  have h : AlertsManager.find
      (AlertsManager.CreateBucketValue testDefs 2000000000 5 15 (TokenBucket.new 0 5 10 1)
        AlertsManager.new).state 5 15 = some (TokenBucket.new 0 5 10 1) := by
    simp only [AlertsManager.CreateBucketValue, AlertsManager.find_store_same,
      TokenBucket.assign, TokenBucket.new]
  rw [h]
  refine ⟨rfl, ?_, ?_, rfl, ?_⟩
  · simp [TokenBucket.new]
  · norm_num [TokenBucket.new, TokenBucket.Update, AccurateClock.DiffSeconds]
  · norm_num [TokenBucket.new, TokenBucket.copy, TokenBucket.Update, AccurateClock.DiffSeconds]

/-- C18: with auto-update disabled `Count()` returns the stored balance and changes nothing,
and `Consume` gives the same outcome at every clock reading: it returns whether the stored
balance covers the amount, leaves the balance that decision gives and leaves `last_update`
as it was.  With auto-update enabled `Count()` returns the balance `Update()` produces and
leaves the bucket `Update()` leaves. -/
theorem auto_update_is_the_only_lazy_replenishment (d : Defs) (now other : TimePoint)
    (amount : ℚ) (b : TokenBucket) :
    let cfgOff : Defs := { d with AutoUpdate := false }
    let cfgOn : Defs := { d with AutoUpdate := true }
    ((TokenBucket.Count cfgOff now b).ret = b._tokens ∧
      (TokenBucket.Count cfgOff now b).state = b ∧
      (TokenBucket.Count cfgOff now b).trace = []) ∧
    ((TokenBucket.Consume cfgOff now amount b).ret = (TokenBucket.Consume cfgOff other amount b).ret ∧
      (TokenBucket.Consume cfgOff now amount b).state =
        (TokenBucket.Consume cfgOff other amount b).state ∧
      (TokenBucket.Consume cfgOff now amount b).ret = decide (b._tokens ≥ amount) ∧
      (TokenBucket.Consume cfgOff now amount b).state._tokens =
        (if b._tokens ≥ amount then b._tokens - amount else 0) ∧
      (TokenBucket.Consume cfgOff now amount b).state._last_update_time = b._last_update_time) ∧
    ((TokenBucket.Count cfgOn now b).ret = (TokenBucket.Update cfgOn now b).state._tokens ∧
      (TokenBucket.Count cfgOn now b).state = (TokenBucket.Update cfgOn now b).state) := by
  intro cfgOff cfgOn
  refine ⟨⟨rfl, rfl, rfl⟩, ⟨rfl, rfl, ?_, ?_, ?_⟩, ⟨rfl, rfl⟩⟩
  · have h := (TokenBucket.Consume_decides_on_refreshed cfgOff now amount b).1
    simpa [cfgOff] using h
  · have h := (TokenBucket.Consume_decides_on_refreshed cfgOff now amount b).2.1
    simpa [cfgOff] using h
  · have h := (TokenBucket.Consume_decides_on_refreshed cfgOff now amount b).2.2
    simpa [cfgOff] using h

theorem lockDiscipline_append (held : List Mutex) (es fs : List Event)
    (h1 : lockDiscipline held es = true) (h2 : lockDiscipline [] fs = true) :
    lockDiscipline held (es ++ fs) = true := by
  induction es generalizing held with
  | nil =>
    have hh : held = [] := by simpa [lockDiscipline] using h1
    subst hh
    exact h2
  | cons e es ih =>
    cases e with
    | lock m =>
      simp only [lockDiscipline, List.cons_append, Bool.and_eq_true] at h1 ⊢
      exact ⟨h1.1, ih _ h1.2⟩
    | unlock m =>
      simp only [lockDiscipline, List.cons_append, Bool.and_eq_true] at h1 ⊢
      exact ⟨h1.1, ih _ h1.2⟩
    | callback f x =>
      simp only [lockDiscipline, List.cons_append, Bool.and_eq_true] at h1 ⊢
      exact ⟨h1.1, ih _ h1.2⟩

theorem lockDiscipline_guarded (d : Defs) (m : Mutex) :
    lockDiscipline [] (lockIf d m ++ unlockIf d m) = true := by
  unfold lockIf unlockIf
  cases d.ThreadSafe <;> simp [lockDiscipline]

theorem lockDiscipline_Update (d : Defs) (now : TimePoint) (b : TokenBucket) :
    lockDiscipline [] (TokenBucket.Update d now b).trace = true := by
  unfold TokenBucket.Update
  simp only []
  split_ifs <;> first | rfl | exact lockDiscipline_guarded d _

theorem lockDiscipline_Consume (d : Defs) (now : TimePoint) (amount : ℚ) (b : TokenBucket) :
    lockDiscipline [] (TokenBucket.Consume d now amount b).trace = true := by
  have hu : lockDiscipline [] (TokenBucket.refreshed d now b).trace = true := by
    unfold TokenBucket.refreshed
    split_ifs
    · exact lockDiscipline_Update d now b
    · rfl
  unfold TokenBucket.Consume
  simp only []
  split_ifs with h
  · rw [List.append_assoc]
    exact lockDiscipline_append _ _ _ hu (lockDiscipline_guarded d _)
  · rw [List.append_assoc, List.append_assoc]
    refine lockDiscipline_append _ _ _ hu ?_
    rw [← List.append_assoc]
    refine lockDiscipline_append _ _ _ (lockDiscipline_guarded d _) ?_
    cases (TokenBucket.refreshed d now b).state.OnBucketExhausted <;> rfl

/-- C19: in the trace of `TokenBucket::Consume` and of `AlertsManager::Consume`, whatever the
flags (so with thread-safety enabled), every callback invocation comes at a point where the
calling thread holds no mutex, every mutex locked is unlocked before the call returns, and no
mutex is locked twice or unlocked unheld.  With thread-safety enabled the failing `Consume(6)`
on the demo bucket locks, unlocks and only then invokes the callback. -/
theorem callback_runs_outside_locks (d : Defs) (now tGet tUpd tReset : TimePoint)
    (amount : ℚ) (b : TokenBucket) (cat_id : CategoryId) (bucket_id : BucketId)
    (m : AlertsManager) :
    lockDiscipline [] (TokenBucket.Consume d now amount b).trace = true ∧
    lockDiscipline []
      (AlertsManager.Consume d tGet tUpd tReset cat_id bucket_id amount m).trace = true ∧
    (TokenBucket.Consume testDefs 0 6 (testBucket 0 7)).trace =
      [Event.lock Mutex.bucket, Event.unlock Mutex.bucket,
       Event.callback 7 (TokenBucket.mk 0 1 10 5 5 0 (some 7))] := by
  refine ⟨lockDiscipline_Consume d now amount b, ?_, ?_⟩
  · unfold AlertsManager.Consume
    simp only []
    split_ifs
    · rfl
    · exact lockDiscipline_append _ _ _ (lockDiscipline_Consume d _ _ _)
        (lockDiscipline_guarded d _)
    · exact lockDiscipline_Consume d _ _ _
  · simp only [TokenBucket.Consume, TokenBucket.refreshed, TokenBucket.Update, testBucket,
      TokenBucket.new, testDefs, AccurateClock.DiffSeconds, lockIf, unlockIf]
    norm_num

namespace TokenBucket

theorem Update_frame (d : Defs) (now : TimePoint) (b : TokenBucket) :
    (Update d now b).state._starting_count = b._starting_count ∧
    (Update d now b).state._max_tokens = b._max_tokens ∧
    (Update d now b).state._replenish_rate = b._replenish_rate ∧
    (Update d now b).state._total_consumption = b._total_consumption := by
  unfold Update
  simp only []
  split_ifs <;> exact ⟨rfl, rfl, rfl, rfl⟩

theorem Restore_frame (d : Defs) (amount : ℚ) (b : TokenBucket) :
    (Restore d amount b).state._starting_count = b._starting_count ∧
    (Restore d amount b).state._max_tokens = b._max_tokens ∧
    (Restore d amount b).state._replenish_rate = b._replenish_rate ∧
    (Restore d amount b).state._total_consumption = b._total_consumption := by
  unfold Restore
  simp only []
  split_ifs <;> exact ⟨rfl, rfl, rfl, rfl⟩

theorem Consume_frame (d : Defs) (now : TimePoint) (amount : ℚ) (b : TokenBucket) :
    (Consume d now amount b).state._starting_count = (refreshed d now b).state._starting_count ∧
    (Consume d now amount b).state._max_tokens = (refreshed d now b).state._max_tokens ∧
    (Consume d now amount b).state._replenish_rate = (refreshed d now b).state._replenish_rate := by
  unfold Consume
  simp only []
  split_ifs <;> exact ⟨rfl, rfl, rfl⟩

theorem Update_wellBuilt (d : Defs) (now : TimePoint) (b : TokenBucket) (hb : WellBuilt b)
    (ht : b._last_update_time ≤ now) :
    WellBuilt (Update d now b).state ∧
      b._total_consumption ≤ (Update d now b).state._total_consumption := by
  obtain ⟨hin, hs0, hs1, hr⟩ := hb
  obtain ⟨f1, f2, f3, f4⟩ := Update_frame d now b
  have h := Update_inRange d now b hin hr ht
  refine ⟨⟨h.1, ?_, ?_, ?_⟩, le_of_eq f4.symm⟩
  · rw [f1]; exact hs0
  · rw [f1, f2]; exact hs1
  · rw [f3]; exact hr

theorem refreshed_wellBuilt (d : Defs) (now : TimePoint) (b : TokenBucket) (hb : WellBuilt b)
    (ht : d.AutoUpdate = true → b._last_update_time ≤ now) :
    WellBuilt (refreshed d now b).state := by
  unfold refreshed
  split_ifs with ha
  · exact (Update_wellBuilt d now b hb (ht ha)).1
  · exact hb

theorem Restore_wellBuilt (d : Defs) (amount : ℚ) (b : TokenBucket) (hb : WellBuilt b)
    (ha : 0 ≤ amount) :
    WellBuilt (Restore d amount b).state ∧
      b._total_consumption ≤ (Restore d amount b).state._total_consumption := by
  obtain ⟨hin, hs0, hs1, hr⟩ := hb
  obtain ⟨f1, f2, f3, f4⟩ := Restore_frame d amount b
  have h := Restore_inRange d amount b hin ha
  refine ⟨⟨h.1, ?_, ?_, ?_⟩, le_of_eq f4.symm⟩
  · rw [f1]; exact hs0
  · rw [f1, f2]; exact hs1
  · rw [f3]; exact hr

theorem Consume_wellBuilt (d : Defs) (now : TimePoint) (amount : ℚ) (b : TokenBucket)
    (hb : WellBuilt b) (ht : d.AutoUpdate = true → b._last_update_time ≤ now)
    (ha : 0 ≤ amount) :
    WellBuilt (Consume d now amount b).state ∧
      b._total_consumption ≤ (Consume d now amount b).state._total_consumption := by
  obtain ⟨⟨h0, h1⟩, hs0, hs1, hr⟩ := refreshed_wellBuilt d now b hb ht
  obtain ⟨f1, f2, f3⟩ := Consume_frame d now amount b
  unfold WellBuilt InRange
  rw [f1, f2, f3]
  by_cases h : (refreshed d now b).state._tokens ≥ amount
  · obtain ⟨_, e2, e3⟩ := Consume_enough d now amount b h
    rw [e2, e3]
    refine ⟨⟨⟨?_, ?_⟩, hs0, hs1, hr⟩, ?_⟩
    · exact sub_nonneg.mpr h
    · linarith
    · linarith
  · obtain ⟨_, e2, e3⟩ := Consume_short d now amount b h
    rw [e2, e3]
    refine ⟨⟨⟨le_refl 0, le_trans h0 h1⟩, hs0, hs1, hr⟩, ?_⟩
    linarith

theorem Reset_wellBuilt (d : Defs) (b : TokenBucket) (hb : WellBuilt b) :
    WellBuilt (Reset d b).state ∧
      b._total_consumption ≤ (Reset d b).state._total_consumption := by
  obtain ⟨_, hs0, hs1, hr⟩ := hb
  exact ⟨⟨⟨hs0, hs1⟩, hs0, hs1, hr⟩, le_refl _⟩

end TokenBucket

theorem Call_apply_wellBuilt (d : Defs) (c : Call) (b : TokenBucket) (hb : WellBuilt b)
    (hc : Call.wellFormed d c b) :
    WellBuilt (Call.apply d c b) ∧
      b._total_consumption ≤ (Call.apply d c b)._total_consumption := by
  cases c with
  | update now => exact TokenBucket.Update_wellBuilt d now b hb hc
  | restore amount => exact TokenBucket.Restore_wellBuilt d amount b hb hc
  | consume now amount => exact TokenBucket.Consume_wellBuilt d now amount b hb hc.1 hc.2
  | count now =>
    have h := TokenBucket.refreshed_wellBuilt d now b hb hc
    refine ⟨h, ?_⟩
    show b._total_consumption ≤ (TokenBucket.refreshed d now b).state._total_consumption
    rw [TokenBucket.refreshed_total]
  | reset => exact TokenBucket.Reset_wellBuilt d b hb

/-- C20: for a bucket built with `0 ≤ starting ≤ max` and `replenish_rate ≥ 0` (with or without
a callback) and every sequence of `Update`, `Consume`, `Count`, `Restore` and `Reset` calls
whose amounts are not negative and whose clock readings are not before the bucket's last
update, every call leaves `0 ≤ tokens ≤ max_tokens` and a `total_consumed` not below the one it
found. -/
theorem capacity_invariant_all_operations (d : Defs) (t0 : TimePoint) (starting max rate : ℚ)
    (callback : Option BucketCallback) (cs : List Call)
    (h0 : 0 ≤ starting) (h1 : starting ≤ max) (hr : 0 ≤ rate)
    (hwf : wellFormedSeq d cs (newWithCallback t0 starting max rate callback)) :
    ∀ p ∈ transitions d cs (newWithCallback t0 starting max rate callback),
      (0 ≤ p.2._tokens ∧ p.2._tokens ≤ p.2._max_tokens) ∧
        p.1._total_consumption ≤ p.2._total_consumption := by
  have hgen : ∀ (cs : List Call) (b : TokenBucket), WellBuilt b → wellFormedSeq d cs b →
      ∀ p ∈ transitions d cs b,
        (0 ≤ p.2._tokens ∧ p.2._tokens ≤ p.2._max_tokens) ∧
          p.1._total_consumption ≤ p.2._total_consumption := by
    intro cs
    induction cs with
    | nil => intro b _ _ p hp; simp [transitions] at hp
    | cons c cs ih =>
      intro b hb hw p hp
      obtain ⟨hc, hrest⟩ := hw
      have hstep := Call_apply_wellBuilt d c b hb hc
      simp only [transitions, List.mem_cons] at hp
      rcases hp with hp | hp
      · subst hp
        exact ⟨hstep.1.1, hstep.2⟩
      · exact ih (Call.apply d c b) hstep.1 hrest p hp
  exact hgen cs _ ⟨⟨h0, h1⟩, h0, h1, hr⟩ hwf

/-- C20 (witness): the demo bucket asked for 6 tokens at the time it was built, then restored
by 20; the invariant and the monotonicity of `total_consumed` hold for the failing `Consume`. -/
theorem capacity_invariant_all_operations_witness :
    wellFormedSeq testDefs [Call.consume 0 6, Call.restore 20]
      (newWithCallback 0 5 10 1 (some 7)) ∧
    ((0 ≤ (Call.apply testDefs (Call.consume 0 6) (newWithCallback 0 5 10 1 (some 7)))._tokens ∧
      (Call.apply testDefs (Call.consume 0 6) (newWithCallback 0 5 10 1 (some 7)))._tokens ≤
        (Call.apply testDefs (Call.consume 0 6)
          (newWithCallback 0 5 10 1 (some 7)))._max_tokens) ∧
     (newWithCallback 0 5 10 1 (some 7))._total_consumption ≤
        (Call.apply testDefs (Call.consume 0 6)
          (newWithCallback 0 5 10 1 (some 7)))._total_consumption) :=
  ⟨by norm_num [wellFormedSeq, Call.wellFormed, newWithCallback, TokenBucket.new],
   capacity_invariant_all_operations testDefs 0 5 10 1 (some 7)
    [Call.consume 0 6, Call.restore 20] (by norm_num) (by norm_num) (by norm_num)
    (by norm_num [wellFormedSeq, Call.wellFormed, newWithCallback, TokenBucket.new])
    (newWithCallback 0 5 10 1 (some 7),
      Call.apply testDefs (Call.consume 0 6) (newWithCallback 0 5 10 1 (some 7)))
    (by simp [transitions])⟩

namespace AccurateClock

theorem DiffSeconds_eq (prev_t now_t : TimePoint) :
    DiffSeconds prev_t now_t = ((now_t - prev_t : Int) : ℚ) / 1000000000 := by
  unfold DiffSeconds
  split_ifs with h
  · subst h
    simp
  · rfl

theorem DiffSeconds_add (t0 t1 t2 : TimePoint) :
    DiffSeconds t0 t2 = DiffSeconds t0 t1 + DiffSeconds t1 t2 := by
  rw [DiffSeconds_eq, DiffSeconds_eq, DiffSeconds_eq]
  push_cast
  ring

end AccurateClock

namespace TokenBucket

theorem Update_state (d : Defs) (now : TimePoint) (b : TokenBucket) :
    (Update d now b).state =
      (if AccurateClock.DiffSeconds b._last_update_time now = 0 then b
       else TokenBucket.mk
         (min (b._tokens + AccurateClock.DiffSeconds b._last_update_time now * b._replenish_rate)
           b._max_tokens)
         b._replenish_rate b._max_tokens b._starting_count b._total_consumption now
         b.OnBucketExhausted) := by
  unfold Update
  simp only []
  by_cases hz : AccurateClock.DiffSeconds b._last_update_time now = 0
  · simp only [hz, if_true]
  · simp only [hz, if_false]
    split_ifs with hgt
    · rw [min_eq_right (le_of_lt hgt)]
    · rw [min_eq_left (not_lt.mp hgt)]

theorem Update_tokens_ge (d : Defs) (now : TimePoint) (b : TokenBucket)
    (hmax : b._tokens ≤ b._max_tokens) (hr : 0 ≤ b._replenish_rate)
    (ht : b._last_update_time ≤ now) :
    b._tokens ≤ (Update d now b).state._tokens := by
  have hdt := AccurateClock.DiffSeconds_nonneg _ _ ht
  have hadd : 0 ≤ AccurateClock.DiffSeconds b._last_update_time now * b._replenish_rate :=
    mul_nonneg hdt hr
  rw [Update_state]
  split_ifs
  · exact le_refl _
  · show b._tokens ≤ min _ _
    exact le_min (by linarith) hmax

end TokenBucket

/-- C22: for a bucket with `tokens ≤ max_tokens` and `replenish_rate ≥ 0` and a clock reading
not before `last_update`, when `Test(amount)` returns true the `Consume(amount)` that follows on
the same bucket returns true, with auto-update enabled and with auto-update disabled; `Test` is
the comparison `tokens ≥ amount` on the bucket and writes no member. -/
theorem Test_never_promises_more_than_Consume (d : Defs) (now : TimePoint) (amount : ℚ)
    (b : TokenBucket) (hmax : b._tokens ≤ b._max_tokens) (hr : 0 ≤ b._replenish_rate)
    (ht : b._last_update_time ≤ now) (hT : TokenBucket.Test amount b = true) :
    (TokenBucket.Consume (Defs.mk d.ThreadSafe d.DefaultCategoryId d.ResetWhenConsumed true)
        now amount b).ret = true ∧
    (TokenBucket.Consume (Defs.mk d.ThreadSafe d.DefaultCategoryId d.ResetWhenConsumed false)
        now amount b).ret = true ∧
    (TokenBucket.Consume d now amount b).ret = true ∧
    TokenBucket.Test amount b = decide (b._tokens ≥ amount) := by
  have hge : b._tokens ≥ amount := by
    simpa [TokenBucket.Test] using hT
  have hgen : ∀ cfg : Defs, (TokenBucket.Consume cfg now amount b).ret = true := by
    intro cfg
    have hup := TokenBucket.Update_tokens_ge cfg now b hmax hr ht
    have href : (TokenBucket.refreshed cfg now b).state._tokens ≥ amount := by
      unfold TokenBucket.refreshed
      split_ifs
      · exact le_trans hge hup
      · exact hge
    exact (TokenBucket.Consume_enough cfg now amount b href).1
  exact ⟨hgen _, hgen _, hgen d, rfl⟩

/-- C22 (witness): the demo bucket, three seconds after it was built, tested and then asked
for 4 tokens. -/
theorem Test_never_promises_more_than_Consume_witness :
    ((testBucket 0 7)._tokens ≤ (testBucket 0 7)._max_tokens ∧
      0 ≤ (testBucket 0 7)._replenish_rate ∧
      (testBucket 0 7)._last_update_time ≤ 3000000000 ∧
      TokenBucket.Test 4 (testBucket 0 7) = true) ∧
    (TokenBucket.Consume testDefs 3000000000 4 (testBucket 0 7)).ret = true :=
  ⟨by norm_num [testBucket, TokenBucket.new, TokenBucket.Test],
   (Test_never_promises_more_than_Consume testDefs 3000000000 4 (testBucket 0 7)
      (by norm_num [testBucket, TokenBucket.new]) (by norm_num [testBucket, TokenBucket.new])
      (by norm_num [testBucket, TokenBucket.new])
      (by norm_num [testBucket, TokenBucket.new, TokenBucket.Test])).2.2.1⟩

/-! ## Theorems in rounded arithmetic -/

namespace TokenBucket

theorem UpdateRounded_id (d : Defs) (now : TimePoint) (b : TokenBucket) :
    UpdateRounded id d now b = Update d now b := by
  simp only [UpdateRounded, Update, AccurateClock.DiffSecondsRounded, AccurateClock.DiffSeconds,
    id]

theorem ConsumeRounded_id (d : Defs) (now : TimePoint) (amount : ℚ) (b : TokenBucket) :
    ConsumeRounded id d now amount b = Consume d now amount b := by
  simp only [ConsumeRounded, Consume, refreshedRounded, refreshed, UpdateRounded_id, id]

theorem UpdateRounded_total (fl : ℚ → ℚ) (d : Defs) (now : TimePoint) (b : TokenBucket) :
    (UpdateRounded fl d now b).state._total_consumption = b._total_consumption := by
  unfold UpdateRounded
  simp only []
  split_ifs <;> rfl

theorem refreshedRounded_total (fl : ℚ → ℚ) (d : Defs) (now : TimePoint) (b : TokenBucket) :
    (refreshedRounded fl d now b).state._total_consumption = b._total_consumption := by
  unfold refreshedRounded
  split_ifs
  · exact UpdateRounded_total fl d now b
  · rfl

theorem ConsumeRounded_step (fl : ℚ → ℚ) (d : Defs) (now : TimePoint) (amount : ℚ)
    (b : TokenBucket) :
    (ConsumeRounded fl d now amount b).ret =
        decide ((refreshedRounded fl d now b).state._tokens ≥ amount) ∧
    (ConsumeRounded fl d now amount b).state._total_consumption =
        fl (b._total_consumption + counted fl d now amount b) ∧
    (ConsumeRounded fl d now amount b).state._tokens =
        (if (ConsumeRounded fl d now amount b).ret = true
         then fl ((refreshedRounded fl d now b).state._tokens - amount) else 0) := by
  have ht := refreshedRounded_total fl d now b
  unfold counted
  by_cases h : (refreshedRounded fl d now b).state._tokens ≥ amount
  · have e : ConsumeRounded fl d now amount b =
        Outcome.mk true
          (TokenBucket.mk (fl ((refreshedRounded fl d now b).state._tokens - amount))
            (refreshedRounded fl d now b).state._replenish_rate
            (refreshedRounded fl d now b).state._max_tokens
            (refreshedRounded fl d now b).state._starting_count
            (fl ((refreshedRounded fl d now b).state._total_consumption + amount))
            (refreshedRounded fl d now b).state._last_update_time
            (refreshedRounded fl d now b).state.OnBucketExhausted)
          ((refreshedRounded fl d now b).trace ++ lockIf d Mutex.bucket ++
            unlockIf d Mutex.bucket) := by
      unfold ConsumeRounded
      simp only [if_pos h]
    rw [e]
    simp only [if_true, ht, decide_eq_true h, and_self]
  · have e : (ConsumeRounded fl d now amount b).ret = false ∧
        (ConsumeRounded fl d now amount b).state._total_consumption =
          fl ((refreshedRounded fl d now b).state._total_consumption +
            (refreshedRounded fl d now b).state._tokens) ∧
        (ConsumeRounded fl d now amount b).state._tokens = 0 := by
      unfold ConsumeRounded
      simp only [if_neg h, and_self]
    obtain ⟨e1, e2, e3⟩ := e
    rw [e1, e2, e3, ht]
    simp only [Bool.false_eq_true, if_false, decide_eq_false h, and_self]

end TokenBucket

/-- C3 (amended): over any sequence of `Consume` attempts `total_consumed` ends as its starting
value to which, attempt after attempt, the code's rounded `+=` has added the requested amount
(on a success) or the balance on which the attempt decided (on a failure); an attempt succeeds
exactly when that balance covers the amount and leaves the rounded difference, or 0 when it
fails.  This holds for every rounding `fl` of the double operations. -/
theorem consumption_accounting_rounded (fl : ℚ → ℚ) (d : Defs)
    (attempts : List (TimePoint × ℚ)) (b : TokenBucket) :
    (consumeAllRounded fl d attempts b)._total_consumption =
        accumulate fl b._total_consumption (countedAll fl d attempts b) ∧
    ∀ (now : TimePoint) (amount : ℚ) (x : TokenBucket),
      (TokenBucket.ConsumeRounded fl d now amount x).ret =
          decide ((TokenBucket.refreshedRounded fl d now x).state._tokens ≥ amount) ∧
      (TokenBucket.ConsumeRounded fl d now amount x).state._total_consumption =
          fl (x._total_consumption + counted fl d now amount x) ∧
      (TokenBucket.ConsumeRounded fl d now amount x).state._tokens =
          (if (TokenBucket.ConsumeRounded fl d now amount x).ret = true
           then fl ((TokenBucket.refreshedRounded fl d now x).state._tokens - amount)
           else 0) := by
  refine ⟨?_, fun now amount x => TokenBucket.ConsumeRounded_step fl d now amount x⟩
  induction attempts generalizing b with
  | nil => rfl
  | cons a rest ih =>
    obtain ⟨now, amount⟩ := a
    simp only [consumeAllRounded, countedAll, accumulate, List.foldl_cons]
    rw [ih (TokenBucket.ConsumeRounded fl d now amount b).state,
      (TokenBucket.ConsumeRounded_step fl d now amount b).2.1]
    rfl

/-- C3 (counterexample): in double arithmetic, on the bucket `(0.1, 10, 1)` a `Consume(0.1)`
at the construction time followed 0.2 s later by a failing `Consume(1)` raises
`total_consumed` by `0.30000000000000004`, which is neither the sum of the amounts the claim
names (`0.1 + 0.2`) nor the sum of the tokens removed, and the failing attempt adds more than
the `0.2` that was available; on a bucket holding `1e16` a successful `Consume(1)` adds 1 to
`total_consumed` and removes nothing from the balance. -/
theorem consumption_accounting_counterexample :
    (consumeAllRounded binary64 testDefs [(0, binary64 (1 / 10)), (200000000, 1)]
        (TokenBucket.new 0 (binary64 (1 / 10)) 10 1))._total_consumption
      = 5404319552844596 / 2 ^ 54 ∧
    ((consumeAllRounded binary64 testDefs [(0, binary64 (1 / 10)), (200000000, 1)]
        (TokenBucket.new 0 (binary64 (1 / 10)) 10 1))._total_consumption
      - (TokenBucket.new 0 (binary64 (1 / 10)) 10 1)._total_consumption
      ≠ (countedAll binary64 testDefs [(0, binary64 (1 / 10)), (200000000, 1)]
          (TokenBucket.new 0 (binary64 (1 / 10)) 10 1)).sum) ∧
    ((consumeAllRounded binary64 testDefs [(0, binary64 (1 / 10)), (200000000, 1)]
        (TokenBucket.new 0 (binary64 (1 / 10)) 10 1))._total_consumption
      - (TokenBucket.new 0 (binary64 (1 / 10)) 10 1)._total_consumption
      ≠ (removedAll binary64 testDefs [(0, binary64 (1 / 10)), (200000000, 1)]
          (TokenBucket.new 0 (binary64 (1 / 10)) 10 1)).sum) ∧
    ((TokenBucket.ConsumeRounded binary64 testDefs 200000000 1
        (TokenBucket.ConsumeRounded binary64 testDefs 0 (binary64 (1 / 10))
          (TokenBucket.new 0 (binary64 (1 / 10)) 10 1)).state).ret = false ∧
      (TokenBucket.refreshedRounded binary64 testDefs 200000000
        (TokenBucket.ConsumeRounded binary64 testDefs 0 (binary64 (1 / 10))
          (TokenBucket.new 0 (binary64 (1 / 10)) 10 1)).state).state._tokens
      < (TokenBucket.ConsumeRounded binary64 testDefs 200000000 1
          (TokenBucket.ConsumeRounded binary64 testDefs 0 (binary64 (1 / 10))
            (TokenBucket.new 0 (binary64 (1 / 10)) 10 1)).state).state._total_consumption
        - (TokenBucket.ConsumeRounded binary64 testDefs 0 (binary64 (1 / 10))
            (TokenBucket.new 0 (binary64 (1 / 10)) 10 1)).state._total_consumption) ∧
    ((TokenBucket.ConsumeRounded binary64 testDefs 0 1
        (TokenBucket.new 0 10000000000000000 20000000000000000 1)).ret = true ∧
      (TokenBucket.ConsumeRounded binary64 testDefs 0 1
        (TokenBucket.new 0 10000000000000000 20000000000000000 1)).state._total_consumption = 1 ∧
      removed binary64 testDefs 0 1
        (TokenBucket.new 0 10000000000000000 20000000000000000 1) = 0) := by
  decide!

theorem scale2_eq_zpow (e : Int) : scale2 e = (2 : ℚ) ^ e := by
  unfold scale2
  split_ifs with h
  · obtain ⟨n, rfl⟩ := Int.eq_ofNat_of_zero_le h
    simp
  · have h2 : 0 ≤ -e := by omega
    obtain ⟨n, hn⟩ := Int.eq_ofNat_of_zero_le h2
    have he : e = -(n : Int) := by omega
    subst he
    simp

theorem scale2_pos (e : Int) : 0 < scale2 e := by
  rw [scale2_eq_zpow]
  positivity

theorem log2Fuel_spec (fuel n : Nat) (hf : n ≤ fuel) (hn : 0 < n) :
    2 ^ log2Fuel fuel n ≤ n ∧ n < 2 ^ (log2Fuel fuel n + 1) := by
  induction fuel generalizing n with
  | zero => omega
  | succ fuel ih =>
    unfold log2Fuel
    split_ifs with h2
    · constructor <;> simp <;> omega
    · have h3 : n / 2 ≤ fuel := by omega
      have h4 : 0 < n / 2 := by omega
      obtain ⟨l, u⟩ := ih (n / 2) h3 h4
      constructor
      · rw [pow_succ]; omega
      · rw [pow_succ]; omega

theorem halfEven_err (y : ℚ) : |(halfEven y : ℚ) - y| ≤ 1 / 2 := by
  have h0 := Int.floor_le y
  have h1 := Int.lt_floor_add_one y
  unfold halfEven
  simp only []
  split_ifs with a b c
  · rw [abs_le]; constructor <;> linarith
  all_goals
    rw [abs_le]
    constructor <;> push_cast <;> linarith


theorem ilog2_le (q : ℚ) (hq : q ≠ 0) : scale2 (ilog2 q) ≤ |q| := by
  unfold ilog2
  simp only []
  split_ifs with h
  · exact h
  · have hn : 0 < q.num.natAbs := Int.natAbs_pos.mpr (Rat.num_ne_zero.mpr hq)
    have hd : 0 < q.den := q.den_pos
    obtain ⟨ha, _⟩ := log2Fuel_spec q.num.natAbs q.num.natAbs (le_refl _) hn
    obtain ⟨_, hb⟩ := log2Fuel_spec q.den q.den (le_refl _) hd
    have habs : |q| = (q.num.natAbs : ℚ) / (q.den : ℚ) := by
      conv_lhs => rw [← Rat.num_div_den q]
      rw [abs_div, Nat.abs_cast, Nat.cast_natAbs, Int.cast_abs]
    rw [habs, scale2_eq_zpow]
    have e1 : (2 : ℚ) ^ ((log2Fuel q.num.natAbs q.num.natAbs : Int) -
        (log2Fuel q.den q.den : Int) - 1) =
        (2 : ℚ) ^ (log2Fuel q.num.natAbs q.num.natAbs) /
          (2 : ℚ) ^ (log2Fuel q.den q.den + 1) := by
      rw [sub_sub, zpow_sub₀ (by norm_num : (2 : ℚ) ≠ 0)]
      norm_cast
    rw [e1]
    have ha' : (2 : ℚ) ^ (log2Fuel q.num.natAbs q.num.natAbs) ≤ (q.num.natAbs : ℚ) := by
      exact_mod_cast ha
    have hb' : (q.den : ℚ) ≤ (2 : ℚ) ^ (log2Fuel q.den q.den + 1) := by
      exact_mod_cast le_of_lt hb
    have hd' : (0 : ℚ) < (q.den : ℚ) := by exact_mod_cast hd
    exact div_le_div₀ (by positivity) ha' hd' hb'

theorem ilog2_lt (q : ℚ) (hq : q ≠ 0) : |q| < scale2 (ilog2 q + 1) := by
  unfold ilog2
  simp only []
  split_ifs with h
  · have hn : 0 < q.num.natAbs := Int.natAbs_pos.mpr (Rat.num_ne_zero.mpr hq)
    have hd : 0 < q.den := q.den_pos
    obtain ⟨_, ha⟩ := log2Fuel_spec q.num.natAbs q.num.natAbs (le_refl _) hn
    obtain ⟨hb, _⟩ := log2Fuel_spec q.den q.den (le_refl _) hd
    have habs : |q| = (q.num.natAbs : ℚ) / (q.den : ℚ) := by
      conv_lhs => rw [← Rat.num_div_den q]
      rw [abs_div, Nat.abs_cast, Nat.cast_natAbs, Int.cast_abs]
    rw [habs, scale2_eq_zpow]
    have e1 : (2 : ℚ) ^ ((log2Fuel q.num.natAbs q.num.natAbs : Int) -
        (log2Fuel q.den q.den : Int) + 1) =
        (2 : ℚ) ^ (log2Fuel q.num.natAbs q.num.natAbs + 1) /
          (2 : ℚ) ^ (log2Fuel q.den q.den) := by
      rw [sub_add_eq_add_sub, zpow_sub₀ (by norm_num : (2 : ℚ) ≠ 0)]
      norm_cast
    rw [e1]
    have ha' : (q.num.natAbs : ℚ) < (2 : ℚ) ^ (log2Fuel q.num.natAbs q.num.natAbs + 1) := by
      exact_mod_cast ha
    have hb' : (2 : ℚ) ^ (log2Fuel q.den q.den) ≤ (q.den : ℚ) := by
      exact_mod_cast hb
    have hd' : (0 : ℚ) < (2 : ℚ) ^ (log2Fuel q.den q.den) := by positivity
    exact div_lt_div₀ ha' hb' (by positivity) hd'
  · have e : (log2Fuel q.num.natAbs q.num.natAbs : Int) - (log2Fuel q.den q.den : Int) - 1 + 1 =
        (log2Fuel q.num.natAbs q.num.natAbs : Int) - (log2Fuel q.den q.den : Int) := by ring
    rw [e]
    exact not_le.mp h

/-- The significand `binary64` rounds has 53 bits: `2^52 ≤ |x| / 2^e < 2^53` for the exponent
`e` it uses. -/
theorem binary64_significand (x : ℚ) (hx : x ≠ 0) :
    2 ^ 52 ≤ |x| / scale2 (ilog2 x - 52) ∧ |x| / scale2 (ilog2 x - 52) < 2 ^ 53 := by
  have hs := scale2_pos (ilog2 x - 52)
  have hlo := ilog2_le x hx
  have hhi := ilog2_lt x hx
  have e1 : scale2 (ilog2 x) = scale2 (ilog2 x - 52) * 2 ^ 52 := by
    rw [scale2_eq_zpow, scale2_eq_zpow, zpow_sub₀ (by norm_num : (2 : ℚ) ≠ 0)]
    rw [div_mul_eq_mul_div, eq_div_iff (by positivity)]
    norm_cast
  have e2 : scale2 (ilog2 x + 1) = scale2 (ilog2 x - 52) * 2 ^ 53 := by
    rw [scale2_eq_zpow, scale2_eq_zpow, zpow_sub₀ (by norm_num : (2 : ℚ) ≠ 0),
      zpow_add₀ (by norm_num : (2 : ℚ) ≠ 0)]
    rw [div_mul_eq_mul_div, eq_div_iff (by positivity)]
    norm_cast
    ring
  rw [e1] at hlo
  rw [e2] at hhi
  constructor
  · rw [le_div_iff₀ hs]
    linarith
  · rw [div_lt_iff₀ hs]
    linarith

theorem binary64_rel (x : ℚ) : |binary64 x - x| ≤ 1 / 2 ^ 53 * |x| := by
  unfold binary64
  split_ifs with h0
  · subst h0; simp
  · simp only []
    have hs := scale2_pos (ilog2 x - 52)
    have herr := halfEven_err (x / scale2 (ilog2 x - 52))
    have hlog := ilog2_le x h0
    have hsplit : scale2 (ilog2 x) = scale2 (ilog2 x - 52) * 2 ^ 52 := by
      rw [scale2_eq_zpow, scale2_eq_zpow, zpow_sub₀ (by norm_num : (2 : ℚ) ≠ 0)]
      rw [div_mul_eq_mul_div, eq_div_iff (by positivity)]
      norm_cast
    have hfac : (halfEven (x / scale2 (ilog2 x - 52)) : ℚ) * scale2 (ilog2 x - 52) - x =
        ((halfEven (x / scale2 (ilog2 x - 52)) : ℚ) - x / scale2 (ilog2 x - 52)) *
          scale2 (ilog2 x - 52) := by
      field_simp
    rw [hfac, abs_mul, abs_of_pos hs]
    calc |(halfEven (x / scale2 (ilog2 x - 52)) : ℚ) - x / scale2 (ilog2 x - 52)| *
          scale2 (ilog2 x - 52)
        ≤ 1 / 2 * scale2 (ilog2 x - 52) := by
          exact mul_le_mul_of_nonneg_right herr (le_of_lt hs)
      _ = 1 / 2 ^ 53 * (scale2 (ilog2 x - 52) * 2 ^ 52) := by ring
      _ = 1 / 2 ^ 53 * scale2 (ilog2 x) := by rw [hsplit]
      _ ≤ 1 / 2 ^ 53 * |x| := by
          exact mul_le_mul_of_nonneg_left hlog (by positivity)

theorem ticks_of_rounding_zero (fl : ℚ → ℚ) (hz : ∀ x, fl x = 0 → x = 0) (c : Int)
    (hc : c ≠ 0) : fl (fl (c : ℚ) / 1000000000) ≠ 0 := by
  intro h
  have h1 := hz _ h
  have h2 : fl (c : ℚ) = 0 := by
    rcases div_eq_zero_iff.mp h1 with h3 | h3
    · exact h3
    · norm_num at h3
  have h4 : (c : ℚ) = 0 := hz _ h2
  exact hc (by exact_mod_cast h4)

namespace AccurateClock

theorem DiffSecondsRounded_eq_zero_iff (fl : ℚ → ℚ)
    (hticks : ∀ c : Int, c ≠ 0 → fl (fl (c : ℚ) / 1000000000) ≠ 0)
    (prev_t now_t : TimePoint) :
    DiffSecondsRounded fl prev_t now_t = 0 ↔ now_t = prev_t := by
  unfold DiffSecondsRounded
  constructor
  · intro h
    by_contra hne
    rw [if_neg hne] at h
    exact hticks (now_t - prev_t) (fun h0 => hne (sub_eq_zero.mp h0)) h
  · intro h
    rw [if_pos h]

end AccurateClock

namespace TokenBucket

/-- In exact arithmetic two successive updates leave the bucket one update leaves. -/
theorem Update_twice_exact (d : Defs) (now1 now2 : TimePoint) (b : TokenBucket)
    (hr : 0 ≤ b._replenish_rate) (h1 : b._last_update_time ≤ now1) (h2 : now1 ≤ now2) :
    (TokenBucket.Update d now2 (TokenBucket.Update d now1 b).state).state =
      (TokenBucket.Update d now2 b).state := by
  by_cases e1 : now1 = b._last_update_time
  · have hz : AccurateClock.DiffSeconds b._last_update_time now1 = 0 :=
      (AccurateClock.DiffSeconds_eq_zero_iff _ _).mpr e1
    have hs : (TokenBucket.Update d now1 b).state = b := by
      rw [TokenBucket.Update_state, if_pos hz]
    rw [hs]
  · have hz1 : ¬ AccurateClock.DiffSeconds b._last_update_time now1 = 0 :=
      fun h => e1 ((AccurateClock.DiffSeconds_eq_zero_iff _ _).mp h)
    have hs : (TokenBucket.Update d now1 b).state = TokenBucket.mk
        (min (b._tokens +
            AccurateClock.DiffSeconds b._last_update_time now1 * b._replenish_rate)
          b._max_tokens)
        b._replenish_rate b._max_tokens b._starting_count b._total_consumption now1
        b.OnBucketExhausted := by
      rw [TokenBucket.Update_state, if_neg hz1]
    by_cases e2 : now2 = now1
    · subst e2
      have hz : AccurateClock.DiffSeconds
          (TokenBucket.Update d now2 b).state._last_update_time now2 = 0 := by
        rw [hs]
        exact (AccurateClock.DiffSeconds_eq_zero_iff _ _).mpr rfl
      rw [TokenBucket.Update_state d now2 (TokenBucket.Update d now2 b).state, if_pos hz]
    · have hz2 : ¬ AccurateClock.DiffSeconds now1 now2 = 0 :=
        fun h => e2 ((AccurateClock.DiffSeconds_eq_zero_iff _ _).mp h)
      have hlt1 : b._last_update_time < now1 := lt_of_le_of_ne h1 (fun h => e1 h.symm)
      have hlt2 : now1 < now2 := lt_of_le_of_ne h2 (fun h => e2 h.symm)
      have e3 : ¬ now2 = b._last_update_time := fun h => by
        rw [h] at hlt2
        exact absurd (lt_trans hlt1 hlt2) (lt_irrefl _)
      have hz3 : ¬ AccurateClock.DiffSeconds b._last_update_time now2 = 0 :=
        fun h => e3 ((AccurateClock.DiffSeconds_eq_zero_iff _ _).mp h)
      have hx : 0 ≤ AccurateClock.DiffSeconds b._last_update_time now1 * b._replenish_rate :=
        mul_nonneg (AccurateClock.DiffSeconds_nonneg _ _ h1) hr
      have hy : 0 ≤ AccurateClock.DiffSeconds now1 now2 * b._replenish_rate :=
        mul_nonneg (AccurateClock.DiffSeconds_nonneg _ _ h2) hr
      have hsum : AccurateClock.DiffSeconds b._last_update_time now2 * b._replenish_rate =
          AccurateClock.DiffSeconds b._last_update_time now1 * b._replenish_rate +
            AccurateClock.DiffSeconds now1 now2 * b._replenish_rate := by
        rw [AccurateClock.DiffSeconds_add b._last_update_time now1 now2]
        ring
      rw [TokenBucket.Update_state d now2 b, if_neg hz3, hs, TokenBucket.Update_state]
      simp only [if_neg hz2, hsum]
      congr 1
      simp only [min_def]
      split_ifs <;> linarith

theorem UpdateRounded_state (fl : ℚ → ℚ) (d : Defs) (now : TimePoint) (b : TokenBucket) :
    (UpdateRounded fl d now b).state =
      (if AccurateClock.DiffSecondsRounded fl b._last_update_time now = 0 then b
       else TokenBucket.mk
         (min (fl (b._tokens +
            fl (AccurateClock.DiffSecondsRounded fl b._last_update_time now * b._replenish_rate)))
           b._max_tokens)
         b._replenish_rate b._max_tokens b._starting_count b._total_consumption now
         b.OnBucketExhausted) := by
  unfold UpdateRounded
  simp only []
  by_cases hz : AccurateClock.DiffSecondsRounded fl b._last_update_time now = 0
  · simp only [hz, if_true]
  · simp only [hz, if_false]
    split_ifs with hgt
    · rw [min_eq_right (le_of_lt hgt)]
    · rw [min_eq_left (not_lt.mp hgt)]

theorem Update_lipschitz (d : Defs) (now : TimePoint) (x y : TokenBucket)
    (hl : x._last_update_time = y._last_update_time)
    (hr : x._replenish_rate = y._replenish_rate) (hm : x._max_tokens = y._max_tokens) :
    |(Update d now x).state._tokens - (Update d now y).state._tokens| ≤
      |x._tokens - y._tokens| := by
  rw [Update_state d now x, Update_state d now y, hl, hr, hm]
  by_cases hz : AccurateClock.DiffSeconds y._last_update_time now = 0
  · simp only [hz, if_true]
    exact le_refl _
  · simp only [hz, if_false]
    have h := abs_min_sub_min_le_max
      (x._tokens + AccurateClock.DiffSeconds y._last_update_time now * y._replenish_rate)
      y._max_tokens
      (y._tokens + AccurateClock.DiffSeconds y._last_update_time now * y._replenish_rate)
      y._max_tokens
    simpa using h

end TokenBucket

theorem rounding_bounds (fl : ℚ → ℚ) (u : ℚ) (hu1 : u ≤ 1)
    (hfl : ∀ x, |fl x - x| ≤ u * |x|) (v X lo hi : ℚ) (hlo0 : 0 ≤ lo) (hX : 0 ≤ X)
    (hlo : lo * X ≤ v) (hhi : v ≤ hi * X) :
    (1 - u) * lo * X ≤ fl v ∧ fl v ≤ (1 + u) * hi * X := by
  have hv : 0 ≤ v := le_trans (mul_nonneg hlo0 hX) hlo
  have h := hfl v
  rw [abs_of_nonneg hv, abs_le] at h
  have hu0 : 0 ≤ u := by
    have := hfl 1
    have h1 : (0 : ℚ) ≤ u * |(1 : ℚ)| := le_trans (abs_nonneg _) this
    simpa using h1
  constructor
  · have h1 : (1 - u) * (lo * X) ≤ (1 - u) * v :=
      mul_le_mul_of_nonneg_left hlo (by linarith)
    nlinarith
  · have h1 : (1 + u) * v ≤ (1 + u) * (hi * X) :=
      mul_le_mul_of_nonneg_left hhi (by linarith)
    nlinarith

theorem rounding_zero (fl : ℚ → ℚ) (u : ℚ) (hu1 : u ≤ 1 / 4)
    (hfl : ∀ x, |fl x - x| ≤ u * |x|) (x : ℚ) (h : fl x = 0) : x = 0 := by
  have hr := hfl x
  rw [h, zero_sub, abs_neg] at hr
  by_contra hx
  have hpos : 0 < |x| := abs_pos.mpr hx
  nlinarith

theorem rounding_chain (fl : ℚ → ℚ) (u : ℚ) (hu0 : 0 ≤ u) (hu1 : u ≤ 1 / 4)
    (hfl : ∀ x, |fl x - x| ≤ u * |x|) (C r : ℚ) (hC : 0 ≤ C) (hr : 0 ≤ r) :
    |fl (fl (fl C / 1000000000) * r) - C / 1000000000 * r| ≤ 4 * u * (C / 1000000000 * r) ∧
    0 ≤ fl (fl (fl C / 1000000000) * r) ∧
    fl (fl (fl C / 1000000000) * r) ≤ 2 * (C / 1000000000 * r) := by
  have hule : u ≤ 1 := by linarith
  have hD0 : 0 ≤ C / 1000000000 := by positivity
  have hP0 : 0 ≤ C / 1000000000 * r := mul_nonneg hD0 hr
  obtain ⟨a1, a2⟩ := rounding_bounds fl u hule hfl C C 1 1 (by norm_num) hC
    (by linarith) (by linarith)
  obtain ⟨b1, b2⟩ := rounding_bounds fl u hule hfl (fl C / 1000000000) (C / 1000000000)
    (1 - u) (1 + u) (by linarith) hD0 (by linarith) (by linarith)
  have hlo0 : 0 ≤ (1 - u) * (1 - u) := mul_nonneg (by linarith) (by linarith)
  obtain ⟨c1, c2⟩ := rounding_bounds fl u hule hfl (fl (fl C / 1000000000) * r)
    (C / 1000000000 * r) ((1 - u) * (1 - u)) ((1 + u) * (1 + u)) hlo0 hP0
    (by
      have := mul_le_mul_of_nonneg_right b1 hr
      linarith)
    (by
      have := mul_le_mul_of_nonneg_right b2 hr
      linarith)
  have hu2 : u * u ≤ u / 4 := by nlinarith
  have hu2n : 0 ≤ u * u := mul_nonneg hu0 hu0
  have hu3 : u * u * u ≤ u / 16 := by nlinarith
  have hu3n : 0 ≤ u * u * u := mul_nonneg hu2n hu0
  have k1 : (1 + u) * ((1 + u) * (1 + u)) ≤ 1 + 4 * u := by
    have e : (1 + u) * ((1 + u) * (1 + u)) = 1 + 3 * u + 3 * (u * u) + u * u * u := by ring
    rw [e]
    linarith
  have k2 : 1 - 4 * u ≤ (1 - u) * ((1 - u) * (1 - u)) := by
    have e : (1 - u) * ((1 - u) * (1 - u)) = 1 - 3 * u + 3 * (u * u) - u * u * u := by ring
    rw [e]
    linarith
  have k3 : 0 ≤ (1 - u) * ((1 - u) * (1 - u)) :=
    mul_nonneg (by linarith) hlo0
  have m1 := mul_le_mul_of_nonneg_right k1 hP0
  have m2 := mul_le_mul_of_nonneg_right k2 hP0
  have m3 := mul_nonneg k3 hP0
  have m4 : (1 + 4 * u) * (C / 1000000000 * r) ≤ 2 * (C / 1000000000 * r) :=
    mul_le_mul_of_nonneg_right (by linarith) hP0
  refine ⟨?_, ?_, ?_⟩
  · rw [abs_le]
    constructor <;> linarith
  · linarith
  · linarith

theorem clamp_error (u a p P S M : ℚ) (hu0 : 0 ≤ u) (h1 : |p - P| ≤ 4 * u * P) (h2 : 0 ≤ p)
    (h3 : p ≤ 2 * P) (h4 : |S - (a + p)| ≤ u * |a + p|) :
    |min S M - min (a + P) M| ≤ u * (|a| + 6 * P) := by
  have hmin : |min S M - min (a + P) M| ≤ |S - (a + P)| := by
    have h := abs_min_sub_min_le_max S M (a + P) M
    simpa using h
  refine le_trans hmin ?_
  have htri : |a + p| ≤ |a| + 2 * P := by
    have := abs_add a p
    rw [abs_of_nonneg h2] at this
    linarith
  have hmul : u * |a + p| ≤ u * (|a| + 2 * P) := mul_le_mul_of_nonneg_left htri hu0
  have hsplit : S - (a + P) = (S - (a + p)) + (p - P) := by ring
  rw [hsplit]
  refine le_trans (abs_add _ _) ?_
  linarith

namespace TokenBucket

theorem UpdateRounded_error (fl : ℚ → ℚ) (u : ℚ) (hu0 : 0 ≤ u) (hu1 : u ≤ 1 / 4)
    (hfl : ∀ x, |fl x - x| ≤ u * |x|) (d : Defs) (now : TimePoint) (b : TokenBucket)
    (hr : 0 ≤ b._replenish_rate) (ht : b._last_update_time ≤ now) :
    |(UpdateRounded fl d now b).state._tokens - (Update d now b).state._tokens| ≤
      u * (|b._tokens| +
        6 * (AccurateClock.DiffSeconds b._last_update_time now * b._replenish_rate)) := by
  have hP0 : 0 ≤ AccurateClock.DiffSeconds b._last_update_time now * b._replenish_rate :=
    mul_nonneg (AccurateClock.DiffSeconds_nonneg _ _ ht) hr
  have hbound : 0 ≤ u * (|b._tokens| +
      6 * (AccurateClock.DiffSeconds b._last_update_time now * b._replenish_rate)) :=
    mul_nonneg hu0 (by positivity)
  have hzR := AccurateClock.DiffSecondsRounded_eq_zero_iff fl
    (ticks_of_rounding_zero fl (rounding_zero fl u hu1 hfl)) b._last_update_time now
  have hzE := AccurateClock.DiffSeconds_eq_zero_iff b._last_update_time now
  rw [UpdateRounded_state, Update_state]
  by_cases hne : now = b._last_update_time
  · rw [if_pos (hzR.mpr hne), if_pos (hzE.mpr hne)]
    simpa using hbound
  · rw [if_neg (fun h => hne (hzR.mp h)), if_neg (fun h => hne (hzE.mp h))]
    simp only []
    have hC : (0 : ℚ) ≤ ((now - b._last_update_time : Int) : ℚ) := by
      exact_mod_cast sub_nonneg.mpr ht
    have hR : AccurateClock.DiffSecondsRounded fl b._last_update_time now =
        fl (fl ((now - b._last_update_time : Int) : ℚ) / 1000000000) := by
      unfold AccurateClock.DiffSecondsRounded
      rw [if_neg hne]
    rw [hR, AccurateClock.DiffSeconds_eq]
    obtain ⟨p1, p2, p3⟩ := rounding_chain fl u hu0 hu1 hfl
      ((now - b._last_update_time : Int) : ℚ) b._replenish_rate hC hr
    exact clamp_error u b._tokens _ _ _ b._max_tokens hu0 p1 p2 p3 (hfl _)

end TokenBucket

namespace TokenBucket

theorem Update_last (d : Defs) (now : TimePoint) (b : TokenBucket) :
    (Update d now b).state._last_update_time = now := by
  rw [Update_state]
  split_ifs with hz
  · exact ((AccurateClock.DiffSeconds_eq_zero_iff _ _).mp hz).symm
  · rfl

theorem UpdateRounded_frame (fl : ℚ → ℚ) (hz : ∀ x, fl x = 0 → x = 0) (d : Defs)
    (now : TimePoint) (b : TokenBucket) :
    (UpdateRounded fl d now b).state._last_update_time = now ∧
    (UpdateRounded fl d now b).state._replenish_rate = b._replenish_rate ∧
    (UpdateRounded fl d now b).state._max_tokens = b._max_tokens := by
  rw [UpdateRounded_state]
  split_ifs with h0
  · exact ⟨((AccurateClock.DiffSecondsRounded_eq_zero_iff fl
      (ticks_of_rounding_zero fl hz) _ _).mp h0).symm, rfl, rfl⟩
  · exact ⟨rfl, rfl, rfl⟩

end TokenBucket

/-- C21 (amended): for a bucket with `replenish_rate ≥ 0`, an `Update()` at a clock reading
`now1` not before `last_update` followed by an `Update()` at a reading `now2` not before `now1`
leaves the same `last_update` as a single `Update()` at `now2`, and a balance that differs from
the single update's by at most the rounding of the double operations: for every rounding `fl`
with relative error at most `u ≤ 1/4` the difference is at most
`u * (2 * |tokens0| + |tokens1| + 12 * t * r)`, where `tokens1` is the balance after the first
update and `t` the exact elapsed seconds from `last_update` to `now2`; in exact arithmetic
(`u = 0`) the balances are equal. -/
theorem refresh_agree_up_to_rounding (fl : ℚ → ℚ) (u : ℚ) (d : Defs) (now1 now2 : TimePoint)
    (b : TokenBucket) (hu0 : 0 ≤ u) (hu1 : u ≤ 1 / 4) (hfl : ∀ x, |fl x - x| ≤ u * |x|)
    (hr : 0 ≤ b._replenish_rate) (h1 : b._last_update_time ≤ now1) (h2 : now1 ≤ now2) :
    (TokenBucket.UpdateRounded fl d now2
        (TokenBucket.UpdateRounded fl d now1 b).state).state._last_update_time =
      (TokenBucket.UpdateRounded fl d now2 b).state._last_update_time ∧
    |(TokenBucket.UpdateRounded fl d now2
          (TokenBucket.UpdateRounded fl d now1 b).state).state._tokens -
        (TokenBucket.UpdateRounded fl d now2 b).state._tokens| ≤
      u * (2 * |b._tokens| + |(TokenBucket.UpdateRounded fl d now1 b).state._tokens| +
        12 * (AccurateClock.DiffSeconds b._last_update_time now2 * b._replenish_rate)) := by
  have hz := rounding_zero fl u hu1 hfl
  obtain ⟨fl1, fr1, fm1⟩ := TokenBucket.UpdateRounded_frame fl hz d now1 b
  obtain ⟨_, em1, er1, _⟩ := TokenBucket.Update_frame d now1 b
  have el1 := TokenBucket.Update_last d now1 b
  constructor
  · rw [(TokenBucket.UpdateRounded_frame fl hz d now2 _).1,
      (TokenBucket.UpdateRounded_frame fl hz d now2 b).1]
  · have hA := TokenBucket.UpdateRounded_error fl u hu0 hu1 hfl d now2
      (TokenBucket.UpdateRounded fl d now1 b).state (by rw [fr1]; exact hr)
      (by rw [fl1]; exact h2)
    rw [fl1, fr1] at hA
    have hB := TokenBucket.Update_lipschitz d now2
      (TokenBucket.UpdateRounded fl d now1 b).state (TokenBucket.Update d now1 b).state
      (by rw [fl1, el1]) (by rw [fr1, er1]) (by rw [fm1, em1])
    have hB2 := TokenBucket.UpdateRounded_error fl u hu0 hu1 hfl d now1 b hr h1
    have hC := TokenBucket.Update_twice_exact d now1 now2 b hr h1 h2
    rw [hC] at hB
    have hD := TokenBucket.UpdateRounded_error fl u hu0 hu1 hfl d now2 b hr (le_trans h1 h2)
    rw [abs_sub_comm] at hD
    have hsum := AccurateClock.DiffSeconds_add b._last_update_time now1 now2
    have hsplit : (TokenBucket.UpdateRounded fl d now2
          (TokenBucket.UpdateRounded fl d now1 b).state).state._tokens -
        (TokenBucket.UpdateRounded fl d now2 b).state._tokens =
        ((TokenBucket.UpdateRounded fl d now2
            (TokenBucket.UpdateRounded fl d now1 b).state).state._tokens -
          (TokenBucket.Update d now2
            (TokenBucket.UpdateRounded fl d now1 b).state).state._tokens) +
        (((TokenBucket.Update d now2
            (TokenBucket.UpdateRounded fl d now1 b).state).state._tokens -
          (TokenBucket.Update d now2 b).state._tokens) +
        ((TokenBucket.Update d now2 b).state._tokens -
          (TokenBucket.UpdateRounded fl d now2 b).state._tokens)) := by ring
    rw [hsplit]
    refine le_trans (abs_add _ _) ?_
    have htri := abs_add
      ((TokenBucket.Update d now2
          (TokenBucket.UpdateRounded fl d now1 b).state).state._tokens -
        (TokenBucket.Update d now2 b).state._tokens)
      ((TokenBucket.Update d now2 b).state._tokens -
        (TokenBucket.UpdateRounded fl d now2 b).state._tokens)
    have hexp : u * (2 * |b._tokens| + |(TokenBucket.UpdateRounded fl d now1 b).state._tokens| +
        12 * (AccurateClock.DiffSeconds b._last_update_time now2 * b._replenish_rate)) =
        u * (|(TokenBucket.UpdateRounded fl d now1 b).state._tokens| +
          6 * (AccurateClock.DiffSeconds now1 now2 * b._replenish_rate)) +
        (u * (|b._tokens| +
          6 * (AccurateClock.DiffSeconds b._last_update_time now1 * b._replenish_rate)) +
        u * (|b._tokens| +
          6 * (AccurateClock.DiffSeconds b._last_update_time now2 * b._replenish_rate))) := by
      rw [hsum]
      ring
    rw [hexp]
    linarith

/-- C21 (witness): double arithmetic (relative rounding error at most `2^-53`) on the bucket
`(0, 10, 1)` updated 0.1 s and then 0.3 s after it was built, against one update at 0.3 s: the
two balances, `0.30000000000000004` and `0.29999999999999999`, are within the bound and the
`last_update` is the same. -/
theorem refresh_agree_up_to_rounding_witness :
    ((0 : ℚ) ≤ 1 / 2 ^ 53 ∧ (1 : ℚ) / 2 ^ 53 ≤ 1 / 4 ∧
      0 ≤ (TokenBucket.new 0 0 10 1)._replenish_rate ∧
      (TokenBucket.new 0 0 10 1)._last_update_time ≤ 100000000 ∧
      (100000000 : TimePoint) ≤ 300000000) ∧
    (TokenBucket.UpdateRounded binary64 testDefs 300000000
        (TokenBucket.UpdateRounded binary64 testDefs 100000000
          (TokenBucket.new 0 0 10 1)).state).state._last_update_time =
      (TokenBucket.UpdateRounded binary64 testDefs 300000000
        (TokenBucket.new 0 0 10 1)).state._last_update_time ∧
    |(TokenBucket.UpdateRounded binary64 testDefs 300000000
          (TokenBucket.UpdateRounded binary64 testDefs 100000000
            (TokenBucket.new 0 0 10 1)).state).state._tokens -
        (TokenBucket.UpdateRounded binary64 testDefs 300000000
          (TokenBucket.new 0 0 10 1)).state._tokens| ≤
      1 / 2 ^ 53 * (2 * |(TokenBucket.new 0 0 10 1)._tokens| +
        |(TokenBucket.UpdateRounded binary64 testDefs 100000000
          (TokenBucket.new 0 0 10 1)).state._tokens| +
        12 * (AccurateClock.DiffSeconds (TokenBucket.new 0 0 10 1)._last_update_time 300000000 *
          (TokenBucket.new 0 0 10 1)._replenish_rate)) :=
  ⟨by norm_num [TokenBucket.new],
   refresh_agree_up_to_rounding binary64 (1 / 2 ^ 53) testDefs 100000000 300000000
    (TokenBucket.new 0 0 10 1) (by norm_num) (by norm_num) binary64_rel
    (by norm_num [TokenBucket.new]) (by norm_num [TokenBucket.new]) (by norm_num)⟩

/-- C21 (counterexample): in double arithmetic, on the bucket `(0, 10, 1)` an `Update()` 0.1 s
and another 0.3 s after the construction leave `0.30000000000000004`, a single `Update()` at
0.3 s leaves `0.29999999999999999`. -/
theorem lazy_and_eager_refresh_counterexample :
    (TokenBucket.UpdateRounded binary64 testDefs 300000000
        (TokenBucket.UpdateRounded binary64 testDefs 100000000
          (TokenBucket.new 0 0 10 1)).state).state._tokens = 5404319552844596 / 2 ^ 54 ∧
    (TokenBucket.UpdateRounded binary64 testDefs 300000000
        (TokenBucket.new 0 0 10 1)).state._tokens = 5404319552844595 / 2 ^ 54 ∧
    (TokenBucket.UpdateRounded binary64 testDefs 300000000
        (TokenBucket.UpdateRounded binary64 testDefs 100000000
          (TokenBucket.new 0 0 10 1)).state).state._tokens ≠
      (TokenBucket.UpdateRounded binary64 testDefs 300000000
        (TokenBucket.new 0 0 10 1)).state._tokens ∧
    (0 ≤ (TokenBucket.new 0 0 10 1)._replenish_rate ∧
      (TokenBucket.new 0 0 10 1)._last_update_time ≤ 100000000 ∧
      (100000000 : TimePoint) ≤ 300000000) := by
  decide!

end BucketAlerts
